import Mathlib

/-!
Verification of the fintech-loan-analysis pipeline (scripts/data_cleaning.py and
scripts/data_transformation.py) against its natural-language specification.

A pandas data frame is embedded shallowly as a header (list of column names)
together with a list of rows; a cell is `Option Val`, with `none` standing for a
pandas null (NaN) and `Val` a string or rational value.  Each cleaning and
transformation step of the scripts is translated into an executable Lean
function on frames; the fallible percent-to-float conversion (pandas
`astype(float)` raises on an unparseable string, and the script catches the
exception at its outer boundary and produces no output) is modelled with
`Option`.
-/

namespace LoanPipeline

/-- A cell value: a string, a finite numeric entry, or an IEEE signed
infinity (`true` = negative), as produced by `float()` on an `inf` string.
Finite floating point in the scripts is modelled by `ℚ`; NaN is the null
cell (`none` at the `Cell` level), as in pandas. -/
inductive Val : Type where
  | str : String → Val
  | num : ℚ → Val
  | inf : Bool → Val
deriving DecidableEq

/-- A cell of a data frame; `none` models a pandas null (NaN). -/
abbrev Cell := Option Val

/-- A data frame: a header of column names and a list of rows of cells. -/
structure Frame : Type where
  cols : List String
  rows : List (List Cell)
deriving DecidableEq

/-- Well-formedness: every row has exactly one cell per header column. -/
def Frame.WF (f : Frame) : Prop := ∀ r ∈ f.rows, r.length = f.cols.length

instance (f : Frame) : Decidable f.WF := List.decidableBAll _ f.rows

/-- The cell of the first column named `c` in row `xs` under header `ns`
(pandas row access `row[c]`); `none` when the column is absent. -/
def cellAt : List String → List Cell → String → Cell
  | n :: ns, x :: xs, c => if n = c then x else cellAt ns xs c
  | _, _, _ => none

/-- Row `i` of a frame (`[]` when out of range). -/
def Frame.rowAt (f : Frame) (i : Nat) : List Cell := f.rows.getD i []

/-- The cells of the column named `c` (pandas `df[c]`). -/
def colCells (f : Frame) (c : String) : List Cell :=
  f.rows.map (fun r => cellAt f.cols r c)

/-- The cells of the column at position `i`. -/
def colCellsAt (f : Frame) (i : Nat) : List Cell :=
  f.rows.map (fun r => r.getD i none)

/-- Does column `i` consist only of nulls (pandas `df[col].isna().all()`)?  On a
frame with no rows this is `true`, as in pandas. -/
def colIsAllNull (f : Frame) (i : Nat) : Bool :=
  (colCellsAt f i).all (fun x => x.isNone)

/-- Number of nulls in column `i` (pandas `df[col].isnull().sum()`). -/
def colNullCount (f : Frame) (i : Nat) : Nat :=
  ((colCellsAt f i).filter (fun x => x.isNone)).length

/-- `missing_pct > 0.8` of data_cleaning.py step 2, written without division:
`nulls / len(df) > 4/5  ↔  5 * nulls > 4 * len(df)` (for `len(df) = 0` pandas
compares NaN, which is false, matching `0 < 0` here). -/
def highMissing (f : Frame) (i : Nat) : Bool :=
  decide (4 * f.rows.length < 5 * colNullCount f i)

/-- Keep the elements of `xs` whose mask entry is `true`. -/
def maskList {α : Type} : List Bool → List α → List α
  | b :: bs, x :: xs => if b then x :: maskList bs xs else maskList bs xs
  | _, _ => []

/-- Drop the columns whose position fails `p`, from the header and from every
row alike (pandas `df.drop(columns=...)` / `df.dropna(axis=1)`). -/
def dropColsBy (p : Nat → Bool) (f : Frame) : Frame :=
  let mask := (List.range f.cols.length).map p
  { cols := maskList mask f.cols, rows := f.rows.map (fun r => maskList mask r) }

/-- Cleaning step 1: `df.dropna(axis=1, how='all')`. -/
def dropEmptyCols (f : Frame) : Frame :=
  dropColsBy (fun i => !(colIsAllNull f i)) f

/-- Cleaning step 2: drop columns with more than 80% missing values. -/
def dropHighMissingCols (f : Frame) : Frame :=
  dropColsBy (fun i => !(highMissing f i)) f

/-- Deduplication keeping the first occurrence of each element, the semantics
of pandas `df.drop_duplicates()`: `seen` accumulates the elements already kept. -/
def dedupAux {α : Type} [DecidableEq α] : List α → List α → List α
  | [], _ => []
  | x :: xs, seen => if x ∈ seen then dedupAux xs seen else x :: dedupAux xs (x :: seen)

/-- `df.drop_duplicates()` on a row list. -/
def dedupFirst {α : Type} [DecidableEq α] (l : List α) : List α := dedupAux l []

/-- Cleaning step 3: `df.drop_duplicates()`. -/
def dropDuplicates (f : Frame) : Frame :=
  { cols := f.cols, rows := dedupFirst f.rows }

/-- The fixed key-column list of data_cleaning.py step 4. -/
def keyCols : List String := ["loan_amnt", "term", "int_rate", "grade", "loan_status"]

/-- `df.dropna(subset=[c])`: keep the rows whose cell in column `c` is non-null. -/
def dropMissingIn (c : String) (f : Frame) : Frame :=
  { cols := f.cols, rows := f.rows.filter (fun r => (cellAt f.cols r c).isSome) }

/-- One entry of the cleaning report's step list, abstracting the formatted
report line it is rendered to. -/
inductive Step : Type where
  | removedEmptyCols : Nat → Step
  | removedHighMissing : Nat → Step
  | removedDupes : Nat → Step
  | removedMissingKey : String → Nat → Step
  | convertedIntRate : Step
  | convertedRevolUtil : Step
deriving DecidableEq

/-- Cleaning step 4: for each key column present, count its nulls and, when
there are any, drop those rows and record a report entry. -/
def keyFold : List String → Frame → Frame × List Step
  | [], f => (f, [])
  | c :: cs, f =>
    if c ∈ f.cols then
      let missing := ((colCells f c).filter (fun x => x.isNone)).length
      if 0 < missing then
        let p := keyFold cs (dropMissingIn c f)
        (p.1, Step.removedMissingKey c missing :: p.2)
      else keyFold cs f
    else keyFold cs f

/-- Numeric value of a digit list, most significant first. -/
def digitsToNat (l : List Char) : Nat :=
  l.foldl (fun a ch => 10 * a + (ch.toNat - 48)) 0

/-- ASCII whitespace stripped around Python `float()` literals. -/
def isPyWs (ch : Char) : Bool :=
  ch == ' ' || ch == '\t' || ch == '\n' || ch == '\r' || ch == '\x0b' || ch == '\x0c'

/-- Lower-case an ASCII letter, for the case-insensitive `nan`, `inf` and
exponent markers of `float()`. -/
def lowerChar (ch : Char) : Char :=
  if 'A' ≤ ch ∧ ch ≤ 'Z' then Char.ofNat (ch.toNat + 32) else ch

/-- Continue a PEP 515 digit run after its first digit: consume
`(digit | '_' digit)*`, returning the digits without the grouping
underscores and the unconsumed rest; an underscore not followed by a digit
invalidates the whole literal (`none`). -/
def digitRunRest : List Char → Option (List Char × List Char)
  | [] => some ([], [])
  | '_' :: cs =>
    match cs with
    | d :: cs2 =>
      if d.isDigit then
        match digitRunRest cs2 with
        | some p => some (d :: p.1, p.2)
        | none => none
      else none
    | [] => none
  | c :: cs =>
    if c.isDigit then
      match digitRunRest cs with
      | some p => some (c :: p.1, p.2)
      | none => none
    else some ([], c :: cs)

/-- A PEP 515 digit run: a digit followed by digits with single grouping
underscores between them; `none` when the input does not start with a digit
or an underscore is misplaced. -/
def digitRun : List Char → Option (List Char × List Char)
  | c :: cs =>
    if c.isDigit then
      match digitRunRest cs with
      | some p => some (c :: p.1, p.2)
      | none => none
    else none
  | [] => none

/-- The value classes of Python `float()`: a finite value, NaN, or a signed
infinity (`true` = negative). -/
inductive PyFloat : Type where
  | num : ℚ → PyFloat
  | nan : PyFloat
  | inf : Bool → PyFloat
deriving DecidableEq

/-- The finite value of a decimal literal from its sign, integer digits,
fraction digits and decimal exponent. -/
def pyFloatVal (neg : Bool) (ip fp : List Char) (ex : Int) : ℚ :=
  (if neg then -1 else 1)
    * ((digitsToNat ip : ℚ) + (digitsToNat fp : ℚ) / (10 : ℚ) ^ fp.length)
    * (10 : ℚ) ^ ex

/-- Parse a decimal `float()` literal after its sign:
`([digits] ['.' [digits]] | '.' digits) [('e'|'E') [sign] digits]` with at
least one mantissa digit; digit runs may carry PEP 515 underscores. -/
def parseDecimal (neg : Bool) (l : List Char) : Option PyFloat :=
  let p1 := match digitRun l with
    | some p => p
    | none => (([] : List Char), l)
  let ip := p1.1
  let p2 := match p1.2 with
    | '.' :: r =>
      (match digitRun r with
        | some q => q
        | none => (([] : List Char), r))
    | _ => (([] : List Char), p1.2)
  let fp := p2.1
  if ip.isEmpty ∧ fp.isEmpty then none
  else
    match p2.2 with
    | [] => some (PyFloat.num (pyFloatVal neg ip fp 0))
    | e :: r3 =>
      if lowerChar e == 'e' then
        let sp := match r3 with
          | '+' :: t => ((false, t) : Bool × List Char)
          | '-' :: t => (true, t)
          | t => (false, t)
        match digitRun sp.2 with
        | some q =>
          if q.2.isEmpty then
            some (PyFloat.num (pyFloatVal neg ip fp
              ((if sp.1 then -1 else 1) * (digitsToNat q.1 : Int))))
          else none
        | none => none
      else none

/-- Python `float(s)`: strip surrounding ASCII whitespace, read an optional
sign, then accept a case-insensitive `nan` (giving NaN), `inf` or `infinity`
(giving a signed infinity), or a decimal literal; anything else raises
(`none`). -/
def parsePyFloat (s : String) : Option PyFloat :=
  let l0 := ((s.toList.dropWhile isPyWs).reverse.dropWhile isPyWs).reverse
  let sp := match l0 with
    | '+' :: t => ((false, t) : Bool × List Char)
    | '-' :: t => (true, t)
    | t => (false, t)
  let low := sp.2.map lowerChar
  if low = "nan".toList then some PyFloat.nan
  else if low = "inf".toList ∨ low = "infinity".toList then some (PyFloat.inf sp.1)
  else parseDecimal sp.1 sp.2

/-- `str.rstrip('%')`: remove every trailing `'%'`. -/
def stripPct (s : String) : String :=
  String.mk ((s.toList.reverse.dropWhile (fun ch => ch = '%')).reverse)

/-- Cleaning step 5 on one cell: `astype(str).str.rstrip('%').astype(float)`.
A null becomes the string `"nan"`, which parses back to NaN, so nulls are
preserved; numeric and infinite cells round-trip through their decimal
representation unchanged; a string cell has its trailing percent signs
removed and is parsed as a Python float — a NaN string (e.g. `"NaN%"`)
becomes a null cell, other parseable strings their value — while an
unparseable string raises (modelled by `none`). -/
def convPct : Cell → Option Cell
  | none => some none
  | some (Val.num q) => some (some (Val.num q))
  | some (Val.inf b) => some (some (Val.inf b))
  | some (Val.str s) =>
    match parsePyFloat (stripPct s) with
    | some (PyFloat.num q) => some (some (Val.num q))
    | some PyFloat.nan => some none
    | some (PyFloat.inf b) => some (some (Val.inf b))
    | none => none

/-- Apply `convPct` to the cells of every column named `c` in one row;
a conversion failure anywhere fails the whole row. -/
def convRowM (c : String) : List String → List Cell → Option (List Cell)
  | _ :: _, [] => some []
  | [], _ => some []
  | n :: ns, x :: xs =>
    match (if n = c then convPct x else some x), convRowM c ns xs with
    | some y, some ys => some (y :: ys)
    | _, _ => none

/-- Apply `convPct` to column `c` in every row. -/
def convRows (c : String) (cols : List String) : List (List Cell) → Option (List (List Cell))
  | [] => some []
  | r :: rs =>
    match convRowM c cols r, convRows c cols rs with
    | some r2, some rs2 => some (r2 :: rs2)
    | _, _ => none

/-- One percent-conversion stage of cleaning step 5: when column `c` is
present, convert it and record the report entry `st` (recorded whenever the
column is present, regardless of whether any value changed). -/
def convStage (c : String) (st : Step) (f : Frame) : Option (Frame × List Step) :=
  if c ∈ f.cols then
    (convRows c f.cols f.rows).map (fun rs => (⟨f.cols, rs⟩, [st]))
  else some (f, [])

/-- Cleaning step 5: convert `int_rate`, then `revol_util`; a raised
conversion error fails the stage. -/
def convertPcts (f : Frame) : Option (Frame × List Step) :=
  match convStage "int_rate" Step.convertedIntRate f with
  | none => none
  | some p1 =>
    match convStage "revol_util" Step.convertedRevolUtil p1.1 with
    | none => none
    | some p2 => some (p2.1, p1.2 ++ p2.2)

/-- The whole cleaning stage of data_cleaning.py `main` (steps 1-5), returning
the cleaned frame and the report's step list, or `none` when the percent
conversion raises. -/
def cleanWithSteps (f : Frame) : Option (Frame × List Step) :=
  let f1 := dropEmptyCols f
  let n1 := f.cols.length - f1.cols.length
  let s1 : List Step := if 0 < n1 then [Step.removedEmptyCols n1] else []
  let f2 := dropHighMissingCols f1
  let n2 := f1.cols.length - f2.cols.length
  let s2 : List Step := if 0 < n2 then [Step.removedHighMissing n2] else []
  let f3 := dropDuplicates f2
  let n3 := f2.rows.length - f3.rows.length
  let s3 : List Step := if 0 < n3 then [Step.removedDupes n3] else []
  let p4 := keyFold keyCols f3
  (convertPcts p4.1).map (fun p5 => (p5.1, s1 ++ s2 ++ s3 ++ p4.2 ++ p5.2))

/-- The cleaned data artifact (`cleaned_data.csv`). -/
def cleanFrame (f : Frame) : Option Frame :=
  (cleanWithSteps f).map Prod.fst

/-- The frame after cleaning steps 1-3 (column drops and deduplication). -/
def preKey (f : Frame) : Frame :=
  dropDuplicates (dropHighMissingCols (dropEmptyCols f))

/-- The frame and report entries after cleaning step 4 (key-column drops). -/
def postKey (f : Frame) : Frame × List Step :=
  keyFold keyCols (preKey f)

/-- The report entries of cleaning steps 1-3. -/
def preSteps (f : Frame) : List Step :=
  let f1 := dropEmptyCols f
  let n1 := f.cols.length - f1.cols.length
  let s1 : List Step := if 0 < n1 then [Step.removedEmptyCols n1] else []
  let f2 := dropHighMissingCols f1
  let n2 := f1.cols.length - f2.cols.length
  let s2 : List Step := if 0 < n2 then [Step.removedHighMissing n2] else []
  let f3 := dropDuplicates f2
  let n3 := f2.rows.length - f3.rows.length
  let s3 : List Step := if 0 < n3 then [Step.removedDupes n3] else []
  s1 ++ s2 ++ s3

/-- Thousands-separated digit grouping, working on a reversed digit list. -/
def groupRev : List Char → List Char
  | [] => []
  | [a] => [a]
  | [a, b] => [a, b]
  | [a, b, c] => [a, b, c]
  | a :: b :: c :: rest => a :: b :: c :: ',' :: groupRev rest

/-- Python format `f"{n:,}"`. -/
def fmtNat (n : Nat) : String :=
  String.mk (groupRev (toString n).toList.reverse).reverse

/-- The report line of one step entry. -/
def stepText : Step → String
  | Step.removedEmptyCols n => "Removed " ++ toString n ++ " empty columns"
  | Step.removedHighMissing n => "Removed " ++ toString n ++ " columns with >80% missing"
  | Step.removedDupes n => "Removed " ++ toString n ++ " duplicate rows"
  | Step.removedMissingKey c n => "Removed " ++ toString n ++ " rows with missing " ++ c
  | Step.convertedIntRate => "Converted int_rate to numeric"
  | Step.convertedRevolUtil => "Converted revol_util to numeric"

/-- The lines of `cleaning_report.txt`, including the `Date:` line that records
the wall-clock time of the run (`datetime.now()`). -/
def reportLines (r0 c0 r1 c1 : Nat) (steps : List Step) (now : String) : List String :=
  ["DATA CLEANING REPORT",
   String.mk (List.replicate 50 '='),
   "Date: " ++ now,
   "",
   "SUMMARY",
   String.mk (List.replicate 10 '-'),
   "Original: " ++ fmtNat r0 ++ " rows, " ++ toString c0 ++ " cols",
   "Final:    " ++ fmtNat r1 ++ " rows, " ++ toString c1 ++ " cols",
   "Reduction: " ++ fmtNat (r0 - r1) ++ " rows, " ++ toString (c0 - c1) ++ " cols",
   "",
   "STEPS PERFORMED",
   String.mk (List.replicate 15 '-')]
  ++ steps.map (fun s => "- " ++ stepText s)

/-- A full run of the cleaning stage at wall-clock time `now`: both output
artifacts, the cleaned frame (`cleaned_data.csv`) and the report text
(`cleaning_report.txt`). -/
def runCleaning (f : Frame) (now : String) : Option (Frame × List String) :=
  (cleanWithSteps f).map (fun p =>
    (p.1, reportLines f.rows.length f.cols.length p.1.rows.length p.1.cols.length p.2 now))

/-- Replace the cell of every position named `c` in a row by `v`
(pandas column assignment on an existing column). -/
def overwriteRow (c : String) (v : Cell) : List String → List Cell → List Cell
  | n :: ns, x :: xs => (if n = c then v else x) :: overwriteRow c v ns xs
  | _, _ => []

/-- Overwrite column `c` with the value list `vs`, row by row. -/
def setColRowsOver (c : String) (cols : List String) : List (List Cell) → List Cell → List (List Cell)
  | r :: rs, v :: vs => overwriteRow c v cols r :: setColRowsOver c cols rs vs
  | _, _ => []

/-- Append the value list `vs` as a new last cell of each row. -/
def setColRowsApp : List (List Cell) → List Cell → List (List Cell)
  | r :: rs, v :: vs => (r ++ [v]) :: setColRowsApp rs vs
  | _, _ => []

/-- Pandas column assignment `df[c] = vs`: overwrite the column when the name
exists, otherwise append it as a new last column. -/
def setCol (c : String) (vs : List Cell) (f : Frame) : Frame :=
  if c ∈ f.cols then ⟨f.cols, setColRowsOver c f.cols f.rows vs⟩
  else ⟨f.cols ++ [c], setColRowsApp f.rows vs⟩

/-- Transformation step 1 on one cell:
`df['loan_status'].isin(['Fully Paid', 'Current']).astype(int)`. -/
def goodLoanCell (x : Cell) : Cell :=
  some (Val.num (if x = some (Val.str "Fully Paid") ∨ x = some (Val.str "Current") then 1 else 0))

/-- Transformation step 2 on one cell: `df['grade'].map(risk_map)` with
`risk_map = {'A': 'Low', 'B': 'Low', 'C': 'Medium', 'D': 'Medium',
'E': 'High', 'F': 'High', 'G': 'High'}`; a grade outside the map's keys
(including null or a non-string) maps to null. -/
def riskCell (x : Cell) : Cell :=
  if x = some (Val.str "A") ∨ x = some (Val.str "B") then some (Val.str "Low")
  else if x = some (Val.str "C") ∨ x = some (Val.str "D") then some (Val.str "Medium")
  else if x = some (Val.str "E") ∨ x = some (Val.str "F") ∨ x = some (Val.str "G") then
    some (Val.str "High")
  else none

/-- Transformation step 3 on one cell pair: `annual_inc / loan_amnt` on
numeric cells (other cases, pandas NaN/infinity arithmetic, are outside every
claim and collapsed to null). -/
def ratioCell (inc amt : Cell) : Cell :=
  match inc, amt with
  | some (Val.num a), some (Val.num b) => if b = 0 then none else some (Val.num (a / b))
  | _, _ => none

/-- First maximal digit run of a string, the match of `str.extract('(\d+)')`. -/
def firstInt (s : String) : Option Nat :=
  let ds := (s.toList.dropWhile (fun ch => !ch.isDigit)).takeWhile Char.isDigit
  if ds.isEmpty then none else some (digitsToNat ds)

/-- Transformation step 4 on one cell:
`df['emp_length'].str.extract('(\d+)').fillna(0).astype(float)` followed by
the override to `10` where `str.contains('\+', na=False)`.  `.str` methods on
a null or non-string cell give NaN, hence `0` after `fillna`, and `na=False`
keeps such cells out of the override. -/
def empYearsCell : Cell → Cell
  | some (Val.str s) =>
    if s.toList.contains '+' then some (Val.num 10)
    else some (Val.num ((firstInt s).getD 0 : ℚ))
  | _ => some (Val.num 0)

/-- Transformation step 5 on one cell: `pd.cut(df['loan_amnt'],
bins=[0, 5000, 15000, 25000, 35000, inf], labels=...)`, whose bins are
left-open right-closed intervals `(lo, hi]`; a value outside every bin
(`loan_amnt ≤ 0`) or a null gives null. -/
def sizeCell : Cell → Cell
  | some (Val.num q) =>
    if q ≤ 0 then none
    else if q ≤ 5000 then some (Val.str "Very Small")
    else if q ≤ 15000 then some (Val.str "Small")
    else if q ≤ 25000 then some (Val.str "Medium")
    else if q ≤ 35000 then some (Val.str "Large")
    else some (Val.str "Very Large")
  | some (Val.inf b) => if b then none else some (Val.str "Very Large")
  | _ => none

/-- A single-source derived column: when `src` is present, assign column `dst`
from `g` applied to each row's `src` cell; otherwise do nothing. -/
def derive1 (dst src : String) (g : Cell → Cell) (f : Frame) : Frame :=
  if src ∈ f.cols then setCol dst (f.rows.map (fun r => g (cellAt f.cols r src))) f
  else f

def addGoodLoan (f : Frame) : Frame := derive1 "is_good_loan" "loan_status" goodLoanCell f

def addRisk (f : Frame) : Frame := derive1 "risk_category" "grade" riskCell f

/-- Transformation step 3: gated on both source columns. -/
def addRatio (f : Frame) : Frame :=
  if "annual_inc" ∈ f.cols ∧ "loan_amnt" ∈ f.cols then
    setCol "income_loan_ratio"
      (f.rows.map (fun r => ratioCell (cellAt f.cols r "annual_inc") (cellAt f.cols r "loan_amnt"))) f
  else f

def addEmpYears (f : Frame) : Frame := derive1 "emp_years" "emp_length" empYearsCell f

def addLoanSize (f : Frame) : Frame := derive1 "loan_size_category" "loan_amnt" sizeCell f

/-- The transformation stage of data_transformation.py `main`: the five
derived-column steps in program order. -/
def transformFrame (f : Frame) : Frame :=
  addLoanSize (addEmpYears (addRatio (addRisk (addGoodLoan f))))

/-- The names of the five derived columns. -/
def derivedNames : List String :=
  ["is_good_loan", "risk_category", "income_loan_ratio", "emp_years", "loan_size_category"]

/-- Column `c` has no null cell in any row of `f`. -/
def noNullIn (f : Frame) (c : String) : Prop :=
  ∀ r ∈ f.rows, (cellAt f.cols r c).isSome = true

instance (f : Frame) (c : String) : Decidable (noNullIn f c) :=
  List.decidableBAll _ f.rows

/-- A cell in the image of `convPct`: null, numeric or infinite. -/
def convertedCell : Cell → Bool
  | none => true
  | some (Val.num _) => true
  | some (Val.inf _) => true
  | some (Val.str _) => false

/-- Every cell of a row sitting in a column named `c` is converted. -/
def colConvInRow (c : String) : List String → List Cell → Bool
  | n :: ns, x :: xs => (if n = c then convertedCell x else true) && colConvInRow c ns xs
  | _, _ => true

/-- The row count recorded by a key-column report entry. -/
def stepCount : Step → Nat
  | Step.removedMissingKey _ n => n
  | _ => 0

/-! ### Concrete example frames used as witnesses and counterexamples -/

/-- Raw input whose `loan_status` column is entirely null. -/
def wC3 : Frame :=
  ⟨["loan_amnt", "term", "int_rate", "grade", "loan_status"],
   [[some (Val.num 1000), some (Val.str "36 months"), some (Val.num 13),
     some (Val.str "A"), none]]⟩

/-- The cleaned output of `wC3`: the all-null `loan_status` column is gone. -/
def wC3out : Frame :=
  ⟨["loan_amnt", "term", "int_rate", "grade"],
   [[some (Val.num 1000), some (Val.str "36 months"), some (Val.num 13),
     some (Val.str "A")]]⟩

/-- Raw input with all five key columns whose `int_rate` is the string
"NaN%": not a pandas NA token, so it survives step 4, and step 5 converts it
to NaN. -/
def wC3b : Frame :=
  ⟨["loan_amnt", "term", "int_rate", "grade", "loan_status"],
   [[some (Val.num 1000), some (Val.str "36 months"), some (Val.str "NaN%"),
     some (Val.str "A"), some (Val.str "Current")]]⟩

/-- The cleaned output of `wC3b`: `int_rate` is present but null. -/
def wC3bOut : Frame :=
  ⟨["loan_amnt", "term", "int_rate", "grade", "loan_status"],
   [[some (Val.num 1000), some (Val.str "36 months"), none,
     some (Val.str "A"), some (Val.str "Current")]]⟩

/-- Raw input where dropping the first row (missing `loan_amnt`) leaves the
`extra` column entirely null in the cleaned output. -/
def wC5 : Frame :=
  ⟨["loan_amnt", "term", "int_rate", "grade", "loan_status", "extra"],
   [[none, some (Val.str "36 months"), some (Val.num 13), some (Val.str "A"),
     some (Val.str "Current"), some (Val.str "x")],
    [some (Val.num 1000), some (Val.str "36 months"), some (Val.num 13), some (Val.str "A"),
     some (Val.str "Current"), none]]⟩

/-- The cleaned output of `wC5`: one row, `extra` now entirely null. -/
def wC5out : Frame :=
  ⟨["loan_amnt", "term", "int_rate", "grade", "loan_status", "extra"],
   [[some (Val.num 1000), some (Val.str "36 months"), some (Val.num 13), some (Val.str "A"),
     some (Val.str "Current"), none]]⟩

/-- Cleaning `wC5out` again drops the `extra` column. -/
def wC5out2 : Frame :=
  ⟨["loan_amnt", "term", "int_rate", "grade", "loan_status"],
   [[some (Val.num 1000), some (Val.str "36 months"), some (Val.num 13), some (Val.str "A"),
     some (Val.str "Current")]]⟩

/-- Raw input with an `int_rate` NaN string in one of two rows: the first
cleaning run converts it to a null that step 4 of a second run then drops. -/
def wC5b : Frame :=
  ⟨["loan_amnt", "term", "int_rate", "grade", "loan_status"],
   [[some (Val.num 1000), some (Val.str "36 months"), some (Val.str "nan%"),
     some (Val.str "A"), some (Val.str "Current")],
    [some (Val.num 2000), some (Val.str "36 months"), some (Val.num 13),
     some (Val.str "B"), some (Val.str "Current")]]⟩

/-- The cleaned output of `wC5b`: one null `int_rate` cell, yet no all-null
column, no high-missing column and no duplicate rows. -/
def wC5bOut : Frame :=
  ⟨["loan_amnt", "term", "int_rate", "grade", "loan_status"],
   [[some (Val.num 1000), some (Val.str "36 months"), none,
     some (Val.str "A"), some (Val.str "Current")],
    [some (Val.num 2000), some (Val.str "36 months"), some (Val.num 13),
     some (Val.str "B"), some (Val.str "Current")]]⟩

/-- Cleaning `wC5bOut` again drops the row whose `int_rate` is null. -/
def wC5bOut2 : Frame :=
  ⟨["loan_amnt", "term", "int_rate", "grade", "loan_status"],
   [[some (Val.num 2000), some (Val.str "36 months"), some (Val.num 13),
     some (Val.str "B"), some (Val.str "Current")]]⟩

/-- An already fully clean one-row input with a numeric `int_rate`: cleaning
changes nothing at all, yet the report still lists the conversion step. -/
def wC7 : Frame :=
  ⟨["loan_amnt", "term", "int_rate", "grade", "loan_status"],
   [[some (Val.num 1000), some (Val.str "36 months"), some (Val.num 13),
     some (Val.str "A"), some (Val.str "Current")]]⟩

/-- Input with one null `grade` row, used for the cleaning witnesses. -/
def wC6 : Frame :=
  ⟨["loan_amnt", "term", "int_rate", "grade", "loan_status"],
   [[some (Val.num 1000), some (Val.str "36 months"), some (Val.num 13),
     some (Val.str "A"), some (Val.str "Current")],
    [some (Val.num 2000), some (Val.str "36 months"), some (Val.num 14),
     none, some (Val.str "Current")]]⟩

/-- The cleaned output of `wC6`: the null-grade row is dropped. -/
def wC6out : Frame :=
  ⟨["loan_amnt", "term", "int_rate", "grade", "loan_status"],
   [[some (Val.num 1000), some (Val.str "36 months"), some (Val.num 13),
     some (Val.str "A"), some (Val.str "Current")]]⟩

/-- Example input with a good and a bad loan status. -/
def wC1 : Frame := ⟨["loan_status"], [[some (Val.str "Current")], [some (Val.str "Charged Off")]]⟩

/-- Example input with grade C. -/
def wC2 : Frame := ⟨["grade"], [[some (Val.str "C")]]⟩

/-- Example input hitting the bin edges 5000 and 35000 of the loan-size cut. -/
def wC4 : Frame := ⟨["loan_amnt"], [[some (Val.num 5000)], [some (Val.num 35000)]]⟩

/-- Example input with the spec's loan_amnt = 20000 example. -/
def wC4a : Frame := ⟨["loan_amnt"], [[some (Val.num 20000)]]⟩

/-- Example input with the spec's emp_length example. -/
def wC8 : Frame := ⟨["emp_length"], [[some (Val.str "10+ years")], [none]]⟩

/-- Example input that already contains a column named `is_good_loan`. -/
def wC10 : Frame :=
  ⟨["loan_status", "is_good_loan"], [[some (Val.str "Fully Paid"), some (Val.num 5)]]⟩

/-- Example input for the frame-preservation witness. -/
def wC10a : Frame :=
  ⟨["loan_status", "term"], [[some (Val.str "Current"), some (Val.str "36 months")]]⟩

/-! ### Basic lemmas about list access -/

theorem getD_map_lt {α β : Type} (φ : α → β) :
    ∀ (l : List α) (i : Nat), i < l.length → ∀ (d : β) (d' : α),
      (l.map φ).getD i d = φ (l.getD i d') := by
  intro l
  induction l with
  | nil => intro i hi; simp at hi
  | cons a l ih =>
    intro i hi d d'
    cases i with
    | zero => simp
    | succ j => simpa using ih j (by simpa using hi) d d'

theorem getD_mem {α : Type} :
    ∀ (l : List α) (i : Nat), i < l.length → ∀ d : α, l.getD i d ∈ l := by
  intro l
  induction l with
  | nil => intro i hi; simp at hi
  | cons a l ih =>
    intro i hi d
    cases i with
    | zero => simp
    | succ j => simpa using Or.inr (ih j (by simpa using hi) d)

/-! ### Lemmas about `cellAt` -/

theorem cellAt_nil_row (ns : List String) (c : String) : cellAt ns [] c = none := by
  cases ns <;> rfl

theorem cellAt_not_mem :
    ∀ (ns : List String) (xs : List Cell) (c : String), c ∉ ns → cellAt ns xs c = none := by
  intro ns
  induction ns with
  | nil => intro xs c _; cases xs <;> rfl
  | cons n ns ih =>
    intro xs c h
    cases xs with
    | nil => rfl
    | cons x xs =>
      have hne : n ≠ c := fun he => h (he ▸ List.mem_cons_self n ns)
      simpa [cellAt, hne] using ih xs c (fun hm => h (List.mem_cons_of_mem n hm))

theorem cellAt_append :
    ∀ (ns : List String) (xs : List Cell), ns.length = xs.length →
      ∀ (ms : List String) (ys : List Cell) (c : String),
        cellAt (ns ++ ms) (xs ++ ys) c = if c ∈ ns then cellAt ns xs c else cellAt ms ys c := by
  intro ns
  induction ns with
  | nil =>
    intro xs hl ms ys c
    cases xs with
    | nil => simp
    | cons x xs => simp at hl
  | cons n ns ih =>
    intro xs hl ms ys c
    cases xs with
    | nil => simp at hl
    | cons x xs =>
      by_cases hnc : n = c
      · subst hnc
        simp [cellAt]
      · have hl' : ns.length = xs.length := by simpa using hl
        have hcn : c ≠ n := fun he => hnc he.symm
        simp [cellAt, hnc, hcn, ih xs hl' ms ys c]

/-! ### Lemmas about `overwriteRow` and `setCol` -/

theorem overwriteRow_length (c : String) (v : Cell) :
    ∀ (ns : List String) (xs : List Cell),
      (overwriteRow c v ns xs).length = min ns.length xs.length := by
  intro ns
  induction ns with
  | nil => intro xs; cases xs <;> simp [overwriteRow]
  | cons n ns ih =>
    intro xs
    cases xs with
    | nil => simp [overwriteRow]
    | cons x xs => simp [overwriteRow, ih xs, Nat.succ_min_succ]

theorem cellAt_overwriteRow_ne (c c' : String) (v : Cell) (h : c' ≠ c) :
    ∀ (ns : List String) (xs : List Cell),
      cellAt ns (overwriteRow c v ns xs) c' = cellAt ns xs c' := by
  intro ns
  induction ns with
  | nil => intro xs; cases xs <;> rfl
  | cons n ns ih =>
    intro xs
    cases xs with
    | nil => rfl
    | cons x xs =>
      by_cases hnc' : n = c'
      · subst hnc'
        simp [overwriteRow, cellAt, h]
      · simp [overwriteRow, cellAt, hnc', ih xs]

theorem cellAt_overwriteRow_eq (c : String) (v : Cell) :
    ∀ (ns : List String) (xs : List Cell), c ∈ ns → ns.length = xs.length →
      cellAt ns (overwriteRow c v ns xs) c = v := by
  intro ns
  induction ns with
  | nil => intro xs hc; simp at hc
  | cons n ns ih =>
    intro xs hc hl
    cases xs with
    | nil => simp at hl
    | cons x xs =>
      by_cases hnc : n = c
      · simp [overwriteRow, cellAt, hnc]
      · have hc' : c ∈ ns := by
          rcases List.mem_cons.mp hc with h | h
          · exact absurd h.symm hnc
          · exact h
        have hl' : ns.length = xs.length := by simpa using hl
        simp [overwriteRow, cellAt, hnc, ih xs hc' hl']

theorem setColRowsOver_length (c : String) (cols : List String) :
    ∀ (rs : List (List Cell)) (vs : List Cell),
      (setColRowsOver c cols rs vs).length = min rs.length vs.length := by
  intro rs
  induction rs with
  | nil => intro vs; cases vs <;> simp [setColRowsOver]
  | cons r rs ih =>
    intro vs
    cases vs with
    | nil => simp [setColRowsOver]
    | cons v vs => simp [setColRowsOver, ih vs, Nat.succ_min_succ]

theorem setColRowsApp_length :
    ∀ (rs : List (List Cell)) (vs : List Cell),
      (setColRowsApp rs vs).length = min rs.length vs.length := by
  intro rs
  induction rs with
  | nil => intro vs; cases vs <;> simp [setColRowsApp]
  | cons r rs ih =>
    intro vs
    cases vs with
    | nil => simp [setColRowsApp]
    | cons v vs => simp [setColRowsApp, ih vs, Nat.succ_min_succ]

theorem setColRowsOver_getD (c : String) (cols : List String) :
    ∀ (rs : List (List Cell)) (vs : List Cell) (i : Nat), i < rs.length → i < vs.length →
      (setColRowsOver c cols rs vs).getD i []
        = overwriteRow c (vs.getD i none) cols (rs.getD i []) := by
  intro rs
  induction rs with
  | nil => intro vs i hi; simp at hi
  | cons r rs ih =>
    intro vs i hi hv
    cases vs with
    | nil => simp at hv
    | cons v vs =>
      cases i with
      | zero => simp [setColRowsOver]
      | succ j =>
        simpa [setColRowsOver] using ih vs j (by simpa using hi) (by simpa using hv)

theorem setColRowsApp_getD :
    ∀ (rs : List (List Cell)) (vs : List Cell) (i : Nat), i < rs.length → i < vs.length →
      (setColRowsApp rs vs).getD i [] = rs.getD i [] ++ [vs.getD i none] := by
  intro rs
  induction rs with
  | nil => intro vs i hi; simp at hi
  | cons r rs ih =>
    intro vs i hi hv
    cases vs with
    | nil => simp at hv
    | cons v vs =>
      cases i with
      | zero => simp [setColRowsApp]
      | succ j =>
        simpa [setColRowsApp] using ih vs j (by simpa using hi) (by simpa using hv)

theorem setColRowsOver_mem (c : String) (cols : List String) :
    ∀ (rs : List (List Cell)) (vs : List Cell) (r' : List Cell),
      r' ∈ setColRowsOver c cols rs vs → ∃ r v, r ∈ rs ∧ r' = overwriteRow c v cols r := by
  intro rs
  induction rs with
  | nil => intro vs r' h; cases vs <;> simp [setColRowsOver] at h
  | cons r rs ih =>
    intro vs r' h
    cases vs with
    | nil => simp [setColRowsApp, setColRowsOver] at h
    | cons v vs =>
      rcases List.mem_cons.mp h with h | h
      · exact ⟨r, v, List.mem_cons_self _ _, h⟩
      · rcases ih vs r' h with ⟨r0, v0, hm, he⟩
        exact ⟨r0, v0, List.mem_cons_of_mem _ hm, he⟩

theorem setColRowsApp_mem :
    ∀ (rs : List (List Cell)) (vs : List Cell) (r' : List Cell),
      r' ∈ setColRowsApp rs vs → ∃ r v, r ∈ rs ∧ r' = r ++ [v] := by
  intro rs
  induction rs with
  | nil => intro vs r' h; cases vs <;> simp [setColRowsApp] at h
  | cons r rs ih =>
    intro vs r' h
    cases vs with
    | nil => simp [setColRowsApp] at h
    | cons v vs =>
      rcases List.mem_cons.mp h with h | h
      · exact ⟨r, v, List.mem_cons_self _ _, h⟩
      · rcases ih vs r' h with ⟨r0, v0, hm, he⟩
        exact ⟨r0, v0, List.mem_cons_of_mem _ hm, he⟩

theorem setCol_cols (c : String) (vs : List Cell) (f : Frame) :
    (setCol c vs f).cols = f.cols ∨ (setCol c vs f).cols = f.cols ++ [c] := by
  unfold setCol
  split
  · exact Or.inl rfl
  · exact Or.inr rfl

theorem setCol_mem_cols (c c' : String) (vs : List Cell) (f : Frame) (h : c' ∈ f.cols) :
    c' ∈ (setCol c vs f).cols := by
  rcases setCol_cols c vs f with he | he <;> rw [he]
  · exact h
  · exact List.mem_append_left _ h

theorem setCol_rows_length (c : String) (vs : List Cell) (f : Frame)
    (hv : vs.length = f.rows.length) :
    (setCol c vs f).rows.length = f.rows.length := by
  unfold setCol
  split
  · simp [setColRowsOver_length, hv]
  · simp [setColRowsApp_length, hv]

theorem setCol_WF (c : String) (vs : List Cell) (f : Frame)
    (hwf : f.WF) : (setCol c vs f).WF := by
  unfold setCol
  split
  · intro r' hr'
    rcases setColRowsOver_mem c f.cols f.rows vs r' hr' with ⟨r, v, hm, he⟩
    simp [he, overwriteRow_length, hwf r hm]
  · intro r' hr'
    rcases setColRowsApp_mem f.rows vs r' hr' with ⟨r, v, hm, he⟩
    simp [he, hwf r hm]

theorem setCol_cellAt_eq (c : String) (vs : List Cell) (f : Frame)
    (hwf : f.WF) (hv : vs.length = f.rows.length) (i : Nat) (hi : i < f.rows.length) :
    cellAt (setCol c vs f).cols ((setCol c vs f).rows.getD i []) c = vs.getD i none := by
  have hrowlen : (f.rows.getD i []).length = f.cols.length :=
    hwf (f.rows.getD i []) (getD_mem f.rows i hi [])
  unfold setCol
  split
  · next hmem =>
    rw [setColRowsOver_getD c f.cols f.rows vs i hi (hv ▸ hi)]
    exact cellAt_overwriteRow_eq c (vs.getD i none) f.cols (f.rows.getD i []) hmem hrowlen.symm
  · next hmem =>
    rw [setColRowsApp_getD f.rows vs i hi (hv ▸ hi),
      cellAt_append f.cols (f.rows.getD i []) hrowlen.symm [c] [vs.getD i none] c]
    simp [hmem, cellAt]

theorem setCol_cellAt_ne (c c' : String) (vs : List Cell) (f : Frame)
    (hwf : f.WF) (hv : vs.length = f.rows.length) (h : c' ≠ c) (i : Nat)
    (hi : i < f.rows.length) :
    cellAt (setCol c vs f).cols ((setCol c vs f).rows.getD i []) c'
      = cellAt f.cols (f.rows.getD i []) c' := by
  have hrowlen : (f.rows.getD i []).length = f.cols.length :=
    hwf (f.rows.getD i []) (getD_mem f.rows i hi [])
  unfold setCol
  split
  · rw [setColRowsOver_getD c f.cols f.rows vs i hi (hv ▸ hi)]
    exact cellAt_overwriteRow_ne c c' (vs.getD i none) h f.cols (f.rows.getD i [])
  · rw [setColRowsApp_getD f.rows vs i hi (hv ▸ hi),
      cellAt_append f.cols (f.rows.getD i []) hrowlen.symm [c] [vs.getD i none] c']
    by_cases hmem : c' ∈ f.cols
    · simp [hmem]
    · simp only [hmem, if_false, cellAt, Ne.symm h, ite_false]
      exact (cellAt_not_mem f.cols (f.rows.getD i []) c' hmem).symm

/-! ### Lemmas about the derived-column steps -/

theorem derive1_rows_length (dst src : String) (g : Cell → Cell) (f : Frame) :
    (derive1 dst src g f).rows.length = f.rows.length := by
  unfold derive1
  split
  · exact setCol_rows_length _ _ _ (by simp)
  · rfl

theorem derive1_WF (dst src : String) (g : Cell → Cell) (f : Frame) (hwf : f.WF) :
    (derive1 dst src g f).WF := by
  unfold derive1
  split
  · exact setCol_WF _ _ _ hwf
  · exact hwf

theorem derive1_cols (dst src : String) (g : Cell → Cell) (f : Frame) :
    (derive1 dst src g f).cols = f.cols ∨ (derive1 dst src g f).cols = f.cols ++ [dst] := by
  unfold derive1
  split
  · exact setCol_cols _ _ _
  · exact Or.inl rfl

theorem derive1_mem_cols (dst src c' : String) (g : Cell → Cell) (f : Frame)
    (h : c' ∈ f.cols) : c' ∈ (derive1 dst src g f).cols := by
  rcases derive1_cols dst src g f with he | he <;> rw [he]
  · exact h
  · exact List.mem_append_left _ h

theorem derive1_mem_cols_iff (dst src c' : String) (g : Cell → Cell) (f : Frame)
    (h : c' ≠ dst) : c' ∈ (derive1 dst src g f).cols ↔ c' ∈ f.cols := by
  rcases derive1_cols dst src g f with he | he <;> rw [he]
  simp [h]

theorem derive1_cellAt_ne (dst src c' : String) (g : Cell → Cell) (f : Frame)
    (hwf : f.WF) (h : c' ≠ dst) (i : Nat) (hi : i < f.rows.length) :
    cellAt (derive1 dst src g f).cols ((derive1 dst src g f).rows.getD i []) c'
      = cellAt f.cols (f.rows.getD i []) c' := by
  unfold derive1
  split
  · exact setCol_cellAt_ne _ _ _ _ hwf (by simp) h i hi
  · rfl

theorem derive1_cellAt_dst (dst src : String) (g : Cell → Cell) (f : Frame)
    (hwf : f.WF) (hsrc : src ∈ f.cols) (i : Nat) (hi : i < f.rows.length) :
    cellAt (derive1 dst src g f).cols ((derive1 dst src g f).rows.getD i []) dst
      = g (cellAt f.cols (f.rows.getD i []) src) := by
  unfold derive1
  rw [if_pos hsrc, setCol_cellAt_eq dst _ f hwf (by simp) i hi]
  exact getD_map_lt _ f.rows i hi none []

theorem addRatio_rows_length (f : Frame) : (addRatio f).rows.length = f.rows.length := by
  unfold addRatio
  split
  · exact setCol_rows_length _ _ _ (by simp)
  · rfl

theorem addRatio_WF (f : Frame) (hwf : f.WF) : (addRatio f).WF := by
  unfold addRatio
  split
  · exact setCol_WF _ _ _ hwf
  · exact hwf

theorem addRatio_cols (f : Frame) :
    (addRatio f).cols = f.cols ∨ (addRatio f).cols = f.cols ++ ["income_loan_ratio"] := by
  unfold addRatio
  split
  · exact setCol_cols _ _ _
  · exact Or.inl rfl

theorem addRatio_mem_cols (c' : String) (f : Frame) (h : c' ∈ f.cols) :
    c' ∈ (addRatio f).cols := by
  rcases addRatio_cols f with he | he <;> rw [he]
  · exact h
  · exact List.mem_append_left _ h

theorem addRatio_mem_cols_iff (c' : String) (f : Frame) (h : c' ≠ "income_loan_ratio") :
    c' ∈ (addRatio f).cols ↔ c' ∈ f.cols := by
  rcases addRatio_cols f with he | he <;> rw [he]
  simp [h]

theorem addGoodLoan_cellAt_ne (f : Frame) (c' : String) (hwf : f.WF)
    (h : c' ≠ "is_good_loan") (i : Nat) (hi : i < f.rows.length) :
    cellAt (addGoodLoan f).cols ((addGoodLoan f).rows.getD i []) c'
      = cellAt f.cols (f.rows.getD i []) c' :=
  derive1_cellAt_ne _ _ _ _ _ hwf h i hi

theorem addRisk_cellAt_ne (f : Frame) (c' : String) (hwf : f.WF)
    (h : c' ≠ "risk_category") (i : Nat) (hi : i < f.rows.length) :
    cellAt (addRisk f).cols ((addRisk f).rows.getD i []) c'
      = cellAt f.cols (f.rows.getD i []) c' :=
  derive1_cellAt_ne _ _ _ _ _ hwf h i hi

theorem addEmpYears_cellAt_ne (f : Frame) (c' : String) (hwf : f.WF)
    (h : c' ≠ "emp_years") (i : Nat) (hi : i < f.rows.length) :
    cellAt (addEmpYears f).cols ((addEmpYears f).rows.getD i []) c'
      = cellAt f.cols (f.rows.getD i []) c' :=
  derive1_cellAt_ne _ _ _ _ _ hwf h i hi

theorem addLoanSize_cellAt_ne (f : Frame) (c' : String) (hwf : f.WF)
    (h : c' ≠ "loan_size_category") (i : Nat) (hi : i < f.rows.length) :
    cellAt (addLoanSize f).cols ((addLoanSize f).rows.getD i []) c'
      = cellAt f.cols (f.rows.getD i []) c' :=
  derive1_cellAt_ne _ _ _ _ _ hwf h i hi

theorem addRatio_cellAt_ne (c' : String) (f : Frame) (hwf : f.WF)
    (h : c' ≠ "income_loan_ratio") (i : Nat) (hi : i < f.rows.length) :
    cellAt (addRatio f).cols ((addRatio f).rows.getD i []) c'
      = cellAt f.cols (f.rows.getD i []) c' := by
  unfold addRatio
  split
  · exact setCol_cellAt_ne _ _ _ _ hwf (by simp) h i hi
  · rfl

/-! ### Composition of the five transformation steps -/

theorem transformFrame_rows_length (f : Frame) :
    (transformFrame f).rows.length = f.rows.length := by
  unfold transformFrame addLoanSize addEmpYears addRisk addGoodLoan
  rw [derive1_rows_length, derive1_rows_length, addRatio_rows_length,
    derive1_rows_length, derive1_rows_length]

theorem transformFrame_WF (f : Frame) (hwf : f.WF) : (transformFrame f).WF :=
  derive1_WF _ _ _ _ (derive1_WF _ _ _ _ (addRatio_WF _
    (derive1_WF _ _ _ _ (derive1_WF _ _ _ _ hwf))))

theorem transformFrame_mem_cols (c' : String) (f : Frame) (h : c' ∈ f.cols) :
    c' ∈ (transformFrame f).cols :=
  derive1_mem_cols _ _ _ _ _ (derive1_mem_cols _ _ _ _ _ (addRatio_mem_cols _ _
    (derive1_mem_cols _ _ _ _ _ (derive1_mem_cols _ _ _ _ _ h))))

/-- The value of the `is_good_loan` column of the processed output, as a
function of the input row's `loan_status` cell. -/
theorem transform_isGoodLoan (f : Frame) (hwf : f.WF) (hls : "loan_status" ∈ f.cols)
    (i : Nat) (hi : i < f.rows.length) :
    cellAt (transformFrame f).cols ((transformFrame f).rows.getD i []) "is_good_loan"
      = goodLoanCell (cellAt f.cols (f.rows.getD i []) "loan_status") := by
  have hwf1 : (addGoodLoan f).WF := derive1_WF _ _ _ _ hwf
  have hwf2 : (addRisk (addGoodLoan f)).WF := derive1_WF _ _ _ _ hwf1
  have hwf3 : (addRatio (addRisk (addGoodLoan f))).WF := addRatio_WF _ hwf2
  have hwf4 : (addEmpYears (addRatio (addRisk (addGoodLoan f)))).WF := derive1_WF _ _ _ _ hwf3
  have hl1 : (addGoodLoan f).rows.length = f.rows.length := derive1_rows_length _ _ _ _
  have hl2 : (addRisk (addGoodLoan f)).rows.length = f.rows.length :=
    (derive1_rows_length _ _ _ _).trans hl1
  have hl3 : (addRatio (addRisk (addGoodLoan f))).rows.length = f.rows.length :=
    (addRatio_rows_length _).trans hl2
  have hl4 : (addEmpYears (addRatio (addRisk (addGoodLoan f)))).rows.length = f.rows.length :=
    (derive1_rows_length _ _ _ _).trans hl3
  calc cellAt (transformFrame f).cols ((transformFrame f).rows.getD i []) "is_good_loan"
      = cellAt (addEmpYears (addRatio (addRisk (addGoodLoan f)))).cols
          ((addEmpYears (addRatio (addRisk (addGoodLoan f)))).rows.getD i []) "is_good_loan" :=
        derive1_cellAt_ne _ _ _ _ _ hwf4 (by decide) i (by rw [hl4]; exact hi)
    _ = cellAt (addRatio (addRisk (addGoodLoan f))).cols
          ((addRatio (addRisk (addGoodLoan f))).rows.getD i []) "is_good_loan" :=
        derive1_cellAt_ne _ _ _ _ _ hwf3 (by decide) i (by rw [hl3]; exact hi)
    _ = cellAt (addRisk (addGoodLoan f)).cols
          ((addRisk (addGoodLoan f)).rows.getD i []) "is_good_loan" :=
        addRatio_cellAt_ne _ _ hwf2 (by decide) i (by rw [hl2]; exact hi)
    _ = cellAt (addGoodLoan f).cols ((addGoodLoan f).rows.getD i []) "is_good_loan" :=
        derive1_cellAt_ne _ _ _ _ _ hwf1 (by decide) i (by rw [hl1]; exact hi)
    _ = goodLoanCell (cellAt f.cols (f.rows.getD i []) "loan_status") :=
        derive1_cellAt_dst _ _ _ _ hwf hls i hi

/-- The value of the `risk_category` column of the processed output, as a
function of the input row's `grade` cell. -/
theorem transform_riskCategory (f : Frame) (hwf : f.WF) (hg : "grade" ∈ f.cols)
    (i : Nat) (hi : i < f.rows.length) :
    cellAt (transformFrame f).cols ((transformFrame f).rows.getD i []) "risk_category"
      = riskCell (cellAt f.cols (f.rows.getD i []) "grade") := by
  have hwf1 : (addGoodLoan f).WF := derive1_WF _ _ _ _ hwf
  have hwf2 : (addRisk (addGoodLoan f)).WF := derive1_WF _ _ _ _ hwf1
  have hwf3 : (addRatio (addRisk (addGoodLoan f))).WF := addRatio_WF _ hwf2
  have hwf4 : (addEmpYears (addRatio (addRisk (addGoodLoan f)))).WF := derive1_WF _ _ _ _ hwf3
  have hl1 : (addGoodLoan f).rows.length = f.rows.length := derive1_rows_length _ _ _ _
  have hl2 : (addRisk (addGoodLoan f)).rows.length = f.rows.length :=
    (derive1_rows_length _ _ _ _).trans hl1
  have hl3 : (addRatio (addRisk (addGoodLoan f))).rows.length = f.rows.length :=
    (addRatio_rows_length _).trans hl2
  have hl4 : (addEmpYears (addRatio (addRisk (addGoodLoan f)))).rows.length = f.rows.length :=
    (derive1_rows_length _ _ _ _).trans hl3
  have hg1 : "grade" ∈ (addGoodLoan f).cols := derive1_mem_cols _ _ _ _ _ hg
  calc cellAt (transformFrame f).cols ((transformFrame f).rows.getD i []) "risk_category"
      = cellAt (addEmpYears (addRatio (addRisk (addGoodLoan f)))).cols
          ((addEmpYears (addRatio (addRisk (addGoodLoan f)))).rows.getD i []) "risk_category" :=
        derive1_cellAt_ne _ _ _ _ _ hwf4 (by decide) i (by rw [hl4]; exact hi)
    _ = cellAt (addRatio (addRisk (addGoodLoan f))).cols
          ((addRatio (addRisk (addGoodLoan f))).rows.getD i []) "risk_category" :=
        derive1_cellAt_ne _ _ _ _ _ hwf3 (by decide) i (by rw [hl3]; exact hi)
    _ = cellAt (addRisk (addGoodLoan f)).cols
          ((addRisk (addGoodLoan f)).rows.getD i []) "risk_category" :=
        addRatio_cellAt_ne _ _ hwf2 (by decide) i (by rw [hl2]; exact hi)
    _ = riskCell (cellAt (addGoodLoan f).cols ((addGoodLoan f).rows.getD i []) "grade") :=
        derive1_cellAt_dst _ _ _ _ hwf1 hg1 i (by rw [hl1]; exact hi)
    _ = riskCell (cellAt f.cols (f.rows.getD i []) "grade") :=
        congrArg riskCell (addGoodLoan_cellAt_ne f "grade" hwf (by decide) i hi)

/-- The value of the `emp_years` column of the processed output, as a function
of the input row's `emp_length` cell. -/
theorem transform_empYears (f : Frame) (hwf : f.WF) (hel : "emp_length" ∈ f.cols)
    (i : Nat) (hi : i < f.rows.length) :
    cellAt (transformFrame f).cols ((transformFrame f).rows.getD i []) "emp_years"
      = empYearsCell (cellAt f.cols (f.rows.getD i []) "emp_length") := by
  have hwf1 : (addGoodLoan f).WF := derive1_WF _ _ _ _ hwf
  have hwf2 : (addRisk (addGoodLoan f)).WF := derive1_WF _ _ _ _ hwf1
  have hwf3 : (addRatio (addRisk (addGoodLoan f))).WF := addRatio_WF _ hwf2
  have hwf4 : (addEmpYears (addRatio (addRisk (addGoodLoan f)))).WF := derive1_WF _ _ _ _ hwf3
  have hl1 : (addGoodLoan f).rows.length = f.rows.length := derive1_rows_length _ _ _ _
  have hl2 : (addRisk (addGoodLoan f)).rows.length = f.rows.length :=
    (derive1_rows_length _ _ _ _).trans hl1
  have hl3 : (addRatio (addRisk (addGoodLoan f))).rows.length = f.rows.length :=
    (addRatio_rows_length _).trans hl2
  have hl4 : (addEmpYears (addRatio (addRisk (addGoodLoan f)))).rows.length = f.rows.length :=
    (derive1_rows_length _ _ _ _).trans hl3
  have hel3 : "emp_length" ∈ (addRatio (addRisk (addGoodLoan f))).cols :=
    addRatio_mem_cols _ _ (derive1_mem_cols _ _ _ _ _ (derive1_mem_cols _ _ _ _ _ hel))
  calc cellAt (transformFrame f).cols ((transformFrame f).rows.getD i []) "emp_years"
      = cellAt (addEmpYears (addRatio (addRisk (addGoodLoan f)))).cols
          ((addEmpYears (addRatio (addRisk (addGoodLoan f)))).rows.getD i []) "emp_years" :=
        derive1_cellAt_ne _ _ _ _ _ hwf4 (by decide) i (by rw [hl4]; exact hi)
    _ = empYearsCell (cellAt (addRatio (addRisk (addGoodLoan f))).cols
          ((addRatio (addRisk (addGoodLoan f))).rows.getD i []) "emp_length") :=
        derive1_cellAt_dst _ _ _ _ hwf3 hel3 i (by rw [hl3]; exact hi)
    _ = empYearsCell (cellAt f.cols (f.rows.getD i []) "emp_length") := by
        rw [addRatio_cellAt_ne _ _ hwf2 (by decide) i (by rw [hl2]; exact hi),
          addRisk_cellAt_ne _ _ hwf1 (by decide) i (by rw [hl1]; exact hi),
          addGoodLoan_cellAt_ne _ _ hwf (by decide) i hi]

/-- The value of the `loan_size_category` column of the processed output, as a
function of the input row's `loan_amnt` cell. -/
theorem transform_loanSize (f : Frame) (hwf : f.WF) (hla : "loan_amnt" ∈ f.cols)
    (i : Nat) (hi : i < f.rows.length) :
    cellAt (transformFrame f).cols ((transformFrame f).rows.getD i []) "loan_size_category"
      = sizeCell (cellAt f.cols (f.rows.getD i []) "loan_amnt") := by
  have hwf1 : (addGoodLoan f).WF := derive1_WF _ _ _ _ hwf
  have hwf2 : (addRisk (addGoodLoan f)).WF := derive1_WF _ _ _ _ hwf1
  have hwf3 : (addRatio (addRisk (addGoodLoan f))).WF := addRatio_WF _ hwf2
  have hwf4 : (addEmpYears (addRatio (addRisk (addGoodLoan f)))).WF := derive1_WF _ _ _ _ hwf3
  have hl1 : (addGoodLoan f).rows.length = f.rows.length := derive1_rows_length _ _ _ _
  have hl2 : (addRisk (addGoodLoan f)).rows.length = f.rows.length :=
    (derive1_rows_length _ _ _ _).trans hl1
  have hl3 : (addRatio (addRisk (addGoodLoan f))).rows.length = f.rows.length :=
    (addRatio_rows_length _).trans hl2
  have hl4 : (addEmpYears (addRatio (addRisk (addGoodLoan f)))).rows.length = f.rows.length :=
    (derive1_rows_length _ _ _ _).trans hl3
  have hla4 : "loan_amnt" ∈ (addEmpYears (addRatio (addRisk (addGoodLoan f)))).cols :=
    derive1_mem_cols _ _ _ _ _ (addRatio_mem_cols _ _
      (derive1_mem_cols _ _ _ _ _ (derive1_mem_cols _ _ _ _ _ hla)))
  calc cellAt (transformFrame f).cols ((transformFrame f).rows.getD i []) "loan_size_category"
      = sizeCell (cellAt (addEmpYears (addRatio (addRisk (addGoodLoan f)))).cols
          ((addEmpYears (addRatio (addRisk (addGoodLoan f)))).rows.getD i []) "loan_amnt") :=
        derive1_cellAt_dst _ _ _ _ hwf4 hla4 i (by rw [hl4]; exact hi)
    _ = sizeCell (cellAt f.cols (f.rows.getD i []) "loan_amnt") := by
        rw [addEmpYears_cellAt_ne _ _ hwf3 (by decide) i (by rw [hl3]; exact hi),
          addRatio_cellAt_ne _ _ hwf2 (by decide) i (by rw [hl2]; exact hi),
          addRisk_cellAt_ne _ _ hwf1 (by decide) i (by rw [hl1]; exact hi),
          addGoodLoan_cellAt_ne _ _ hwf (by decide) i hi]

/-- Transformation never changes the value of a column whose name is not one
of the five derived names. -/
theorem transform_cellAt_old (f : Frame) (hwf : f.WF) (c' : String)
    (h : c' ∉ derivedNames) (i : Nat) (hi : i < f.rows.length) :
    cellAt (transformFrame f).cols ((transformFrame f).rows.getD i []) c'
      = cellAt f.cols (f.rows.getD i []) c' := by
  simp only [derivedNames, List.mem_cons, List.mem_singleton, not_or] at h
  obtain ⟨h1, h2, h3, h4, h5, -⟩ := h
  have hwf1 : (addGoodLoan f).WF := derive1_WF _ _ _ _ hwf
  have hwf2 : (addRisk (addGoodLoan f)).WF := derive1_WF _ _ _ _ hwf1
  have hwf3 : (addRatio (addRisk (addGoodLoan f))).WF := addRatio_WF _ hwf2
  have hwf4 : (addEmpYears (addRatio (addRisk (addGoodLoan f)))).WF := derive1_WF _ _ _ _ hwf3
  have hl1 : (addGoodLoan f).rows.length = f.rows.length := derive1_rows_length _ _ _ _
  have hl2 : (addRisk (addGoodLoan f)).rows.length = f.rows.length :=
    (derive1_rows_length _ _ _ _).trans hl1
  have hl3 : (addRatio (addRisk (addGoodLoan f))).rows.length = f.rows.length :=
    (addRatio_rows_length _).trans hl2
  have hl4 : (addEmpYears (addRatio (addRisk (addGoodLoan f)))).rows.length = f.rows.length :=
    (derive1_rows_length _ _ _ _).trans hl3
  calc cellAt (transformFrame f).cols ((transformFrame f).rows.getD i []) c'
      = cellAt (addEmpYears (addRatio (addRisk (addGoodLoan f)))).cols
          ((addEmpYears (addRatio (addRisk (addGoodLoan f)))).rows.getD i []) c' :=
        derive1_cellAt_ne _ _ _ _ _ hwf4 h5 i (by rw [hl4]; exact hi)
    _ = cellAt (addRatio (addRisk (addGoodLoan f))).cols
          ((addRatio (addRisk (addGoodLoan f))).rows.getD i []) c' :=
        derive1_cellAt_ne _ _ _ _ _ hwf3 h4 i (by rw [hl3]; exact hi)
    _ = cellAt (addRisk (addGoodLoan f)).cols
          ((addRisk (addGoodLoan f)).rows.getD i []) c' :=
        addRatio_cellAt_ne _ _ hwf2 h3 i (by rw [hl2]; exact hi)
    _ = cellAt (addGoodLoan f).cols ((addGoodLoan f).rows.getD i []) c' :=
        derive1_cellAt_ne _ _ _ _ _ hwf1 h2 i (by rw [hl1]; exact hi)
    _ = cellAt f.cols (f.rows.getD i []) c' :=
        derive1_cellAt_ne _ _ _ _ _ hwf h1 i hi

/-! ### Claim C1 -/

/-- C1: for every row of the processed output (transformation run on a cleaned
frame containing the `loan_status` column), the derived `is_good_loan` cell
equals 1 if and only if the row's `loan_status` is "Fully Paid" or "Current",
and the cell takes no value outside {0, 1}. -/
theorem claim_C1_isGoodLoan (f : Frame) (hwf : f.WF) (hls : "loan_status" ∈ f.cols)
    (i : Nat) (hi : i < f.rows.length) :
    (cellAt (transformFrame f).cols ((transformFrame f).rows.getD i []) "is_good_loan"
        = some (Val.num 1)
      ↔ (cellAt f.cols (f.rows.getD i []) "loan_status" = some (Val.str "Fully Paid")
          ∨ cellAt f.cols (f.rows.getD i []) "loan_status" = some (Val.str "Current")))
    ∧ (cellAt (transformFrame f).cols ((transformFrame f).rows.getD i []) "is_good_loan"
        = some (Val.num 1)
      ∨ cellAt (transformFrame f).cols ((transformFrame f).rows.getD i []) "is_good_loan"
        = some (Val.num 0)) := by
  rw [transform_isGoodLoan f hwf hls i hi]
  set x := cellAt f.cols (f.rows.getD i []) "loan_status" with hx
  by_cases hcase : x = some (Val.str "Fully Paid") ∨ x = some (Val.str "Current")
  · simp [goodLoanCell, hcase]
  · simp [goodLoanCell, hcase]

/-- Witness for C1 at a concrete two-row frame: the hypotheses hold and the
good row yields 1 while the charged-off row yields 0. -/
theorem claim_C1_witness :
    wC1.WF ∧ "loan_status" ∈ wC1.cols ∧ 1 < wC1.rows.length
    ∧ (cellAt (transformFrame wC1).cols ((transformFrame wC1).rows.getD 1 []) "is_good_loan"
          = some (Val.num 1)
        ↔ (cellAt wC1.cols (wC1.rows.getD 1 []) "loan_status" = some (Val.str "Fully Paid")
            ∨ cellAt wC1.cols (wC1.rows.getD 1 []) "loan_status" = some (Val.str "Current")))
    ∧ (cellAt (transformFrame wC1).cols ((transformFrame wC1).rows.getD 1 []) "is_good_loan"
          = some (Val.num 1)
        ∨ cellAt (transformFrame wC1).cols ((transformFrame wC1).rows.getD 1 []) "is_good_loan"
          = some (Val.num 0)) :=
  ⟨by decide, by decide, by decide,
    (claim_C1_isGoodLoan wC1 (by decide) (by decide) 1 (by decide)).1,
    (claim_C1_isGoodLoan wC1 (by decide) (by decide) 1 (by decide)).2⟩

/-! ### Claim C2 -/

/-- C2: for every row of the processed output (input containing the `grade`
column), `risk_category` is "Low" when the grade is "A" or "B", "Medium" when
it is "C" or "D", "High" when it is "E", "F" or "G", and null for every grade
value outside A-G. -/
theorem claim_C2_riskCategory (f : Frame) (hwf : f.WF) (hg : "grade" ∈ f.cols)
    (i : Nat) (hi : i < f.rows.length) :
    ((cellAt f.cols (f.rows.getD i []) "grade" = some (Val.str "A")
        ∨ cellAt f.cols (f.rows.getD i []) "grade" = some (Val.str "B")) →
      cellAt (transformFrame f).cols ((transformFrame f).rows.getD i []) "risk_category"
        = some (Val.str "Low"))
    ∧ ((cellAt f.cols (f.rows.getD i []) "grade" = some (Val.str "C")
        ∨ cellAt f.cols (f.rows.getD i []) "grade" = some (Val.str "D")) →
      cellAt (transformFrame f).cols ((transformFrame f).rows.getD i []) "risk_category"
        = some (Val.str "Medium"))
    ∧ ((cellAt f.cols (f.rows.getD i []) "grade" = some (Val.str "E")
        ∨ cellAt f.cols (f.rows.getD i []) "grade" = some (Val.str "F")
        ∨ cellAt f.cols (f.rows.getD i []) "grade" = some (Val.str "G")) →
      cellAt (transformFrame f).cols ((transformFrame f).rows.getD i []) "risk_category"
        = some (Val.str "High"))
    ∧ (¬(cellAt f.cols (f.rows.getD i []) "grade" = some (Val.str "A")
        ∨ cellAt f.cols (f.rows.getD i []) "grade" = some (Val.str "B")
        ∨ cellAt f.cols (f.rows.getD i []) "grade" = some (Val.str "C")
        ∨ cellAt f.cols (f.rows.getD i []) "grade" = some (Val.str "D")
        ∨ cellAt f.cols (f.rows.getD i []) "grade" = some (Val.str "E")
        ∨ cellAt f.cols (f.rows.getD i []) "grade" = some (Val.str "F")
        ∨ cellAt f.cols (f.rows.getD i []) "grade" = some (Val.str "G")) →
      cellAt (transformFrame f).cols ((transformFrame f).rows.getD i []) "risk_category"
        = none) := by
  rw [transform_riskCategory f hwf hg i hi]
  set x := cellAt f.cols (f.rows.getD i []) "grade" with hx
  refine ⟨fun h => ?_, fun h => ?_, fun h => ?_, fun h => ?_⟩
  · rcases h with h | h <;> rw [h] <;> decide
  · rcases h with h | h <;> rw [h] <;> decide
  · rcases h with h | h | h <;> rw [h] <;> decide
  · push_neg at h
    obtain ⟨hA, hB, hC, hD, hE, hF, hG⟩ := h
    simp [riskCell, hA, hB, hC, hD, hE, hF, hG]

/-- Witness for C2 at a one-row frame with grade "C": the hypotheses hold and
`risk_category` is "Medium". -/
theorem claim_C2_witness :
    wC2.WF ∧ "grade" ∈ wC2.cols ∧ 0 < wC2.rows.length
    ∧ cellAt (transformFrame wC2).cols ((transformFrame wC2).rows.getD 0 []) "risk_category"
        = some (Val.str "Medium") :=
  ⟨by decide, by decide, by decide,
    (claim_C2_riskCategory wC2 (by decide) (by decide) 0 (by decide)).2.1 (Or.inl (by decide))⟩

/-! ### Claim C4 -/

/-- C4 counterexample: the claim puts 5000 in the "Small" bucket
(`5000 ≤ loan_amnt < 15000`) and 35000 in "Very Large" (`loan_amnt ≥ 35000`),
but `pd.cut` with `bins=[0,5000,15000,25000,35000,inf]` uses right-closed
intervals, so the code yields "Very Small" at 5000 and "Large" at 35000. -/
theorem claim_C4_counterexample :
    cellAt wC4.cols (wC4.rows.getD 0 []) "loan_amnt" = some (Val.num 5000)
    ∧ cellAt (transformFrame wC4).cols ((transformFrame wC4).rows.getD 0 []) "loan_size_category"
        = some (Val.str "Very Small")
    ∧ cellAt wC4.cols (wC4.rows.getD 1 []) "loan_amnt" = some (Val.num 35000)
    ∧ cellAt (transformFrame wC4).cols ((transformFrame wC4).rows.getD 1 []) "loan_size_category"
        = some (Val.str "Large") := by
  refine ⟨by decide, ?_, by decide, ?_⟩ <;> decide

/-- C4 amended: `loan_size_category` buckets `loan_amnt` by the right-closed
bins of `pd.cut`: "Very Small" on (0, 5000], "Small" on (5000, 15000],
"Medium" on (15000, 25000], "Large" on (25000, 35000], "Very Large" above
35000, and null at or below 0; in particular 20000 yields "Medium". -/
theorem claim_C4_loanSize_amended (f : Frame) (hwf : f.WF) (hla : "loan_amnt" ∈ f.cols)
    (i : Nat) (hi : i < f.rows.length) (q : ℚ)
    (hq : cellAt f.cols (f.rows.getD i []) "loan_amnt" = some (Val.num q)) :
    (0 < q → q ≤ 5000 →
      cellAt (transformFrame f).cols ((transformFrame f).rows.getD i []) "loan_size_category"
        = some (Val.str "Very Small"))
    ∧ (5000 < q → q ≤ 15000 →
      cellAt (transformFrame f).cols ((transformFrame f).rows.getD i []) "loan_size_category"
        = some (Val.str "Small"))
    ∧ (15000 < q → q ≤ 25000 →
      cellAt (transformFrame f).cols ((transformFrame f).rows.getD i []) "loan_size_category"
        = some (Val.str "Medium"))
    ∧ (25000 < q → q ≤ 35000 →
      cellAt (transformFrame f).cols ((transformFrame f).rows.getD i []) "loan_size_category"
        = some (Val.str "Large"))
    ∧ (35000 < q →
      cellAt (transformFrame f).cols ((transformFrame f).rows.getD i []) "loan_size_category"
        = some (Val.str "Very Large"))
    ∧ (q ≤ 0 →
      cellAt (transformFrame f).cols ((transformFrame f).rows.getD i []) "loan_size_category"
        = none) := by
  rw [transform_loanSize f hwf hla i hi, hq]
  refine ⟨fun h0 h1 => ?_, fun h0 h1 => ?_, fun h0 h1 => ?_, fun h0 h1 => ?_,
    fun h0 => ?_, fun h0 => ?_⟩
  · simp [sizeCell, not_le.mpr h0, h1]
  · simp [sizeCell, not_le.mpr (by linarith : (0 : ℚ) < q), not_le.mpr h0, h1]
  · simp [sizeCell, not_le.mpr (by linarith : (0 : ℚ) < q),
      not_le.mpr (by linarith : (5000 : ℚ) < q), not_le.mpr h0, h1]
  · simp [sizeCell, not_le.mpr (by linarith : (0 : ℚ) < q),
      not_le.mpr (by linarith : (5000 : ℚ) < q),
      not_le.mpr (by linarith : (15000 : ℚ) < q), not_le.mpr h0, h1]
  · simp [sizeCell, not_le.mpr (by linarith : (0 : ℚ) < q),
      not_le.mpr (by linarith : (5000 : ℚ) < q),
      not_le.mpr (by linarith : (15000 : ℚ) < q),
      not_le.mpr (by linarith : (25000 : ℚ) < q), not_le.mpr h0]
  · simp [sizeCell, h0]

/-- Witness for the amended C4 at loan_amnt = 20000: the hypotheses hold and
the bucket is "Medium", the spec's own example. -/
theorem claim_C4_witness :
    wC4a.WF ∧ "loan_amnt" ∈ wC4a.cols ∧ 0 < wC4a.rows.length
    ∧ cellAt wC4a.cols (wC4a.rows.getD 0 []) "loan_amnt" = some (Val.num 20000)
    ∧ cellAt (transformFrame wC4a).cols ((transformFrame wC4a).rows.getD 0 [])
        "loan_size_category" = some (Val.str "Medium") :=
  ⟨by decide, by decide, by decide, by decide,
    (claim_C4_loanSize_amended wC4a (by decide) (by decide) 0 (by decide) 20000
      (by decide)).2.2.1 (by decide) (by decide)⟩

/-! ### Claim C8 -/

/-- C8: for every row of the processed output (input containing `emp_length`),
`emp_years` is forced to 10 whenever the string contains "+", otherwise it is
the first integer appearing in the string, or 0 when the string has no digit;
a null `emp_length` also gives 0; in particular "10+ years" yields 10. -/
theorem claim_C8_empYears (f : Frame) (hwf : f.WF) (hel : "emp_length" ∈ f.cols)
    (i : Nat) (hi : i < f.rows.length) :
    (∀ s : String, cellAt f.cols (f.rows.getD i []) "emp_length" = some (Val.str s) →
      ((s.toList.contains '+' = true →
        cellAt (transformFrame f).cols ((transformFrame f).rows.getD i []) "emp_years"
          = some (Val.num 10))
      ∧ (s.toList.contains '+' = false → ∀ n : Nat, firstInt s = some n →
        cellAt (transformFrame f).cols ((transformFrame f).rows.getD i []) "emp_years"
          = some (Val.num n))
      ∧ (s.toList.contains '+' = false → firstInt s = none →
        cellAt (transformFrame f).cols ((transformFrame f).rows.getD i []) "emp_years"
          = some (Val.num 0))))
    ∧ (cellAt f.cols (f.rows.getD i []) "emp_length" = none →
      cellAt (transformFrame f).cols ((transformFrame f).rows.getD i []) "emp_years"
        = some (Val.num 0)) := by
  rw [transform_empYears f hwf hel i hi]
  refine ⟨fun s hs => ⟨fun hplus => ?_, fun hplus n hn => ?_, fun hplus hn => ?_⟩, fun hs => ?_⟩
  · have h' : '+' ∈ s.data := by simpa using hplus
    rw [hs]; simp [empYearsCell, h']
  · have h' : '+' ∉ s.data := by simpa using hplus
    rw [hs]; simp [empYearsCell, h', hn]
  · have h' : '+' ∉ s.data := by simpa using hplus
    rw [hs]; simp [empYearsCell, h', hn]
  · rw [hs]; simp [empYearsCell]

/-- Witness for C8: "10+ years" yields 10 and a null emp_length yields 0. -/
theorem claim_C8_witness :
    wC8.WF ∧ "emp_length" ∈ wC8.cols ∧ 0 < wC8.rows.length
    ∧ cellAt (transformFrame wC8).cols ((transformFrame wC8).rows.getD 0 []) "emp_years"
        = some (Val.num 10)
    ∧ cellAt (transformFrame wC8).cols ((transformFrame wC8).rows.getD 1 []) "emp_years"
        = some (Val.num 0) :=
  ⟨by decide, by decide, by decide,
    ((claim_C8_empYears wC8 (by decide) (by decide) 0 (by decide)).1
      "10+ years" (by decide)).1 (by decide),
    (claim_C8_empYears wC8 (by decide) (by decide) 1 (by decide)).2 (by decide)⟩

/-! ### Claim C10 -/

/-- C10 counterexample: on an input that already contains a column named
`is_good_loan` with value 5, the transformation overwrites that pre-existing
column (the value becomes 1), so it does not leave every pre-existing column
unmodified. -/
theorem claim_C10_counterexample :
    "is_good_loan" ∈ wC10.cols
    ∧ cellAt wC10.cols (wC10.rows.getD 0 []) "is_good_loan" = some (Val.num 5)
    ∧ cellAt (transformFrame wC10).cols ((transformFrame wC10).rows.getD 0 []) "is_good_loan"
        = some (Val.num 1) := by
  refine ⟨by decide, by decide, ?_⟩
  decide

/-- C10 amended: the transformation preserves the row count and every input
column name, and it preserves the values of every pre-existing column whose
name is not one of the five derived names; a pre-existing column bearing a
derived name may be overwritten in place. -/
theorem claim_C10_frame_amended (f : Frame) (hwf : f.WF) :
    (transformFrame f).rows.length = f.rows.length
    ∧ (∀ c ∈ f.cols, c ∈ (transformFrame f).cols)
    ∧ ∀ c ∈ f.cols, c ∉ derivedNames → ∀ i, i < f.rows.length →
        cellAt (transformFrame f).cols ((transformFrame f).rows.getD i []) c
          = cellAt f.cols (f.rows.getD i []) c :=
  ⟨transformFrame_rows_length f, fun c hc => transformFrame_mem_cols c f hc,
    fun c _ hnd i hi => transform_cellAt_old f hwf c hnd i hi⟩

/-- Witness for the amended C10 at a concrete frame: row count is preserved
and the pre-existing `term` column keeps its value. -/
theorem claim_C10_witness :
    wC10a.WF ∧ (transformFrame wC10a).rows.length = wC10a.rows.length
    ∧ cellAt (transformFrame wC10a).cols ((transformFrame wC10a).rows.getD 0 []) "term"
        = cellAt wC10a.cols (wC10a.rows.getD 0 []) "term" :=
  ⟨by decide, (claim_C10_frame_amended wC10a (by decide)).1,
    (claim_C10_frame_amended wC10a (by decide)).2.2 "term" (by decide) (by decide) 0 (by decide)⟩

/-! ### Lemmas about column masking (cleaning steps 1 and 2) -/

theorem maskList_sublist {α : Type} :
    ∀ (bs : List Bool) (xs : List α), List.Sublist (maskList bs xs) xs := by
  intro bs
  induction bs with
  | nil => intro xs; cases xs <;> simp [maskList]
  | cons b bs ih =>
    intro xs
    cases xs with
    | nil => simp [maskList]
    | cons x xs =>
      cases b with
      | true => simpa [maskList] using (ih xs).cons₂ x
      | false => simpa [maskList] using (ih xs).cons x

theorem maskList_all_true {α : Type} :
    ∀ (bs : List Bool) (xs : List α), (∀ b ∈ bs, b = true) → xs.length ≤ bs.length →
      maskList bs xs = xs := by
  intro bs
  induction bs with
  | nil =>
    intro xs _ hl
    cases xs with
    | nil => rfl
    | cons x xs => simp at hl
  | cons b bs ih =>
    intro xs hall hl
    cases xs with
    | nil => cases b <;> rfl
    | cons x xs =>
      have hb : b = true := hall b (List.mem_cons_self _ _)
      subst hb
      simp only [maskList, if_true]
      rw [ih xs (fun b hb => hall b (List.mem_cons_of_mem _ hb)) (by simpa using hl)]

theorem maskList_length_congr {α β : Type} :
    ∀ (bs : List Bool) (xs : List α) (ys : List β), xs.length = ys.length →
      (maskList bs xs).length = (maskList bs ys).length := by
  intro bs
  induction bs with
  | nil =>
    intro xs ys h
    cases xs <;> cases ys <;> simp_all [maskList]
  | cons b bs ih =>
    intro xs ys h
    cases xs with
    | nil => cases ys with
      | nil => rfl
      | cons y ys => simp at h
    | cons x xs =>
      cases ys with
      | nil => simp at h
      | cons y ys =>
        have h' : xs.length = ys.length := by simpa using h
        cases b <;> simp [maskList, ih xs ys h']

theorem dropColsBy_cols_sublist (p : Nat → Bool) (f : Frame) :
    List.Sublist (dropColsBy p f).cols f.cols :=
  maskList_sublist _ _

theorem dropColsBy_rows_length (p : Nat → Bool) (f : Frame) :
    (dropColsBy p f).rows.length = f.rows.length := by
  simp [dropColsBy]

theorem dropColsBy_WF (p : Nat → Bool) (f : Frame) (hwf : f.WF) : (dropColsBy p f).WF := by
  intro r' hr'
  simp only [dropColsBy, List.mem_map] at hr'
  obtain ⟨r, hr, rfl⟩ := hr'
  exact maskList_length_congr _ r f.cols (hwf r hr)

theorem dropColsBy_id (p : Nat → Bool) (f : Frame) (hwf : f.WF)
    (hall : ∀ i, i < f.cols.length → p i = true) : dropColsBy p f = f := by
  have hmask : ∀ b ∈ (List.range f.cols.length).map p, b = true := by
    intro b hb
    simp only [List.mem_map, List.mem_range] at hb
    obtain ⟨i, hi, rfl⟩ := hb
    exact hall i hi
  have hmlen : ((List.range f.cols.length).map p).length = f.cols.length := by simp
  unfold dropColsBy
  cases f with
  | mk cols rows =>
    simp only [Frame.mk.injEq]
    constructor
    · exact maskList_all_true _ _ hmask (le_of_eq hmlen.symm)
    · have : ∀ r ∈ rows, maskList ((List.range cols.length).map p) r = r := by
        intro r hr
        exact maskList_all_true _ _ hmask
          (le_of_eq ((hwf r hr).trans hmlen.symm))
      calc rows.map (fun r => maskList ((List.range cols.length).map p) r)
          = rows.map id := List.map_congr_left this
        _ = rows := List.map_id rows

/-! ### Lemmas about deduplication (cleaning step 3) -/

theorem dedupAux_sublist {α : Type} [DecidableEq α] :
    ∀ (l seen : List α), List.Sublist (dedupAux l seen) l := by
  intro l
  induction l with
  | nil => intro seen; simp [dedupAux]
  | cons x xs ih =>
    intro seen
    unfold dedupAux
    split
    · exact (ih seen).cons x
    · exact (ih (x :: seen)).cons₂ x

theorem dedupAux_id {α : Type} [DecidableEq α] :
    ∀ (l seen : List α), l.Nodup → (∀ a ∈ l, a ∉ seen) → dedupAux l seen = l := by
  intro l
  induction l with
  | nil => intro seen _ _; rfl
  | cons x xs ih =>
    intro seen hnd hout
    have hx : x ∉ seen := hout x (List.mem_cons_self _ _)
    unfold dedupAux
    rw [if_neg hx, ih (x :: seen) (List.Nodup.of_cons hnd)]
    intro a ha hmem
    rcases List.mem_cons.mp hmem with rfl | hmem
    · exact (List.nodup_cons.mp hnd).1 ha
    · exact hout a (List.mem_cons_of_mem _ ha) hmem

theorem dedupFirst_sublist {α : Type} [DecidableEq α] (l : List α) : List.Sublist (dedupFirst l) l :=
  dedupAux_sublist l []

theorem dedupFirst_id {α : Type} [DecidableEq α] (l : List α) (h : l.Nodup) :
    dedupFirst l = l :=
  dedupAux_id l [] h (by simp)

theorem dropDuplicates_cols (f : Frame) : (dropDuplicates f).cols = f.cols := rfl

theorem dropDuplicates_rows_sublist (f : Frame) : List.Sublist (dropDuplicates f).rows f.rows :=
  dedupFirst_sublist f.rows

theorem dropDuplicates_WF (f : Frame) (hwf : f.WF) : (dropDuplicates f).WF := by
  intro r hr
  exact hwf r ((dropDuplicates_rows_sublist f).subset hr)

theorem dropDuplicates_id (f : Frame) (h : f.rows.Nodup) : dropDuplicates f = f := by
  unfold dropDuplicates
  cases f with
  | mk cols rows => simp [dedupFirst_id rows h]

/-! ### Counting helpers for null cells -/

theorem filter_isSome_isNone_length :
    ∀ l : List Cell,
      (l.filter (fun x => x.isSome)).length + (l.filter (fun x => x.isNone)).length
        = l.length := by
  intro l
  induction l with
  | nil => rfl
  | cons x xs ih =>
    cases x <;> simp [List.filter, ih] <;> omega

theorem filter_map_length {α β : Type} (g : α → β) (p : β → Bool) :
    ∀ l : List α, ((l.map g).filter p).length = (l.filter (fun a => p (g a))).length := by
  intro l
  induction l with
  | nil => rfl
  | cons x xs ih =>
    by_cases h : p (g x) <;> simp [List.filter, h, ih]

theorem filter_length_partition {α : Type} (p : α → Bool) :
    ∀ l : List α, (l.filter p).length + (l.filter (fun a => !(p a))).length = l.length := by
  intro l
  induction l with
  | nil => rfl
  | cons x xs ih =>
    by_cases h : p x <;> simp [List.filter, h, ih] <;> omega

theorem isNone_eq_not_isSome (x : Cell) : x.isNone = !x.isSome := by
  cases x <;> rfl

/-! ### Lemmas about the key-column pass (cleaning step 4) -/

theorem dropMissingIn_cols (c : String) (f : Frame) : (dropMissingIn c f).cols = f.cols := rfl

theorem dropMissingIn_rows_sublist (c : String) (f : Frame) :
    List.Sublist (dropMissingIn c f).rows f.rows := List.filter_sublist _

theorem dropMissingIn_noNull (c : String) (f : Frame) : noNullIn (dropMissingIn c f) c := by
  intro r hr
  simp only [dropMissingIn, List.mem_filter] at hr
  exact hr.2

theorem dropMissingIn_noNull_mono (c c' : String) (f : Frame) (h : noNullIn f c) :
    noNullIn (dropMissingIn c' f) c := by
  intro r hr
  exact h r ((dropMissingIn_rows_sublist c' f).subset hr)

theorem dropMissingIn_WF (c : String) (f : Frame) (hwf : f.WF) : (dropMissingIn c f).WF := by
  intro r hr
  exact hwf r ((dropMissingIn_rows_sublist c f).subset hr)

/-- `noNullIn f c` makes the null count of column `c` zero. -/
theorem noNull_filter_nil (f : Frame) (c : String) (h : noNullIn f c) :
    (colCells f c).filter (fun x => x.isNone) = [] := by
  rw [List.filter_eq_nil_iff]
  intro x hx
  simp only [colCells, List.mem_map] at hx
  obtain ⟨r, hr, rfl⟩ := hx
  simp [isNone_eq_not_isSome, h r hr]

/-- A zero null count for column `c` means `noNullIn f c`. -/
theorem noNull_of_filter_nil (f : Frame) (c : String)
    (h : ((colCells f c).filter (fun x => x.isNone)).length = 0) : noNullIn f c := by
  intro r hr
  have hx : cellAt f.cols r c ∈ colCells f c := List.mem_map_of_mem _ hr
  rcases List.length_eq_zero.mp h with hnil
  have := List.filter_eq_nil_iff.mp hnil _ hx
  cases hcell : cellAt f.cols r c with
  | none => rw [hcell] at this; simp at this
  | some v => rfl

theorem keyFold_cols : ∀ (cs : List String) (f : Frame), (keyFold cs f).1.cols = f.cols := by
  intro cs
  induction cs with
  | nil => intro f; rfl
  | cons c cs ih =>
    intro f
    unfold keyFold
    split
    · dsimp only
      split
      · show (keyFold cs (dropMissingIn c f)).1.cols = f.cols
        rw [ih (dropMissingIn c f), dropMissingIn_cols]
      · exact ih f
    · exact ih f

theorem keyFold_rows_sublist :
    ∀ (cs : List String) (f : Frame), List.Sublist (keyFold cs f).1.rows f.rows := by
  intro cs
  induction cs with
  | nil => intro f; exact List.Sublist.refl _
  | cons c cs ih =>
    intro f
    unfold keyFold
    split
    · dsimp only
      split
      · show List.Sublist (keyFold cs (dropMissingIn c f)).1.rows f.rows
        exact (ih (dropMissingIn c f)).trans (dropMissingIn_rows_sublist c f)
      · exact ih f
    · exact ih f

theorem keyFold_WF (cs : List String) (f : Frame) (hwf : f.WF) : (keyFold cs f).1.WF := by
  intro r hr
  rw [keyFold_cols cs f]
  exact hwf r ((keyFold_rows_sublist cs f).subset hr)

theorem keyFold_noNull_pres :
    ∀ (cs : List String) (f : Frame) (c : String), noNullIn f c →
      noNullIn (keyFold cs f).1 c := by
  intro cs
  induction cs with
  | nil => intro f c h; exact h
  | cons c0 cs ih =>
    intro f c h
    unfold keyFold
    split
    · dsimp only
      split
      · show noNullIn (keyFold cs (dropMissingIn c0 f)).1 c
        exact ih (dropMissingIn c0 f) c (dropMissingIn_noNull_mono c c0 f h)
      · exact ih f c h
    · exact ih f c h

theorem keyFold_noNull :
    ∀ (cs : List String) (f : Frame) (c : String), c ∈ cs → c ∈ f.cols →
      noNullIn (keyFold cs f).1 c := by
  intro cs
  induction cs with
  | nil => intro f c hmem; simp at hmem
  | cons c0 cs ih =>
    intro f c hmem hcol
    unfold keyFold
    split
    · next h0 =>
      dsimp only
      split
      · next hmiss =>
        show noNullIn (keyFold cs (dropMissingIn c0 f)).1 c
        rcases List.mem_cons.mp hmem with rfl | hmem'
        · exact keyFold_noNull_pres cs _ c (dropMissingIn_noNull c f)
        · exact ih (dropMissingIn c0 f) c hmem' hcol
      · next hmiss =>
        rcases List.mem_cons.mp hmem with rfl | hmem'
        · have hz : ((colCells f c).filter (fun x => x.isNone)).length = 0 := by omega
          exact keyFold_noNull_pres cs f c (noNull_of_filter_nil f c hz)
        · exact ih f c hmem' hcol
    · next h0 =>
      rcases List.mem_cons.mp hmem with rfl | hmem'
      · exact absurd hcol h0
      · exact ih f c hmem' hcol

theorem keyFold_id :
    ∀ (cs : List String) (f : Frame), (∀ c ∈ cs, c ∈ f.cols → noNullIn f c) →
      keyFold cs f = (f, []) := by
  intro cs
  induction cs with
  | nil => intro f _; rfl
  | cons c0 cs ih =>
    intro f h
    unfold keyFold
    split
    · next h0 =>
      dsimp only
      have hz : (colCells f c0).filter (fun x => x.isNone) = [] :=
        noNull_filter_nil f c0 (h c0 (List.mem_cons_self _ _) h0)
      rw [hz]
      simp only [List.length_nil, Nat.lt_irrefl, if_false]
      exact ih f (fun c hc => h c (List.mem_cons_of_mem _ hc))
    · exact ih f (fun c hc => h c (List.mem_cons_of_mem _ hc))

theorem keyFold_steps_shape :
    ∀ (cs : List String) (f : Frame) (e : Step), e ∈ (keyFold cs f).2 →
      ∃ c n, e = Step.removedMissingKey c n ∧ 0 < n := by
  intro cs
  induction cs with
  | nil => intro f e he; simp [keyFold] at he
  | cons c0 cs ih =>
    intro f e he
    unfold keyFold at he
    split at he
    · dsimp only at he
      split at he
      · next hmiss =>
        rcases List.mem_cons.mp he with rfl | he'
        · exact ⟨c0, _, rfl, hmiss⟩
        · exact ih (dropMissingIn c0 f) e he'
      · exact ih f e he
    · exact ih f e he

theorem keyFold_rows_conserve :
    ∀ (cs : List String) (f : Frame),
      (keyFold cs f).1.rows.length + ((keyFold cs f).2.map stepCount).sum
        = f.rows.length := by
  intro cs
  induction cs with
  | nil => intro f; simp [keyFold]
  | cons c0 cs ih =>
    intro f
    unfold keyFold
    split
    · dsimp only
      split
      · next hmiss =>
        have hpart : (f.rows.filter (fun r => (cellAt f.cols r c0).isSome)).length
            + ((colCells f c0).filter (fun x => x.isNone)).length = f.rows.length := by
          have h1 : ((colCells f c0).filter (fun x => x.isNone)).length
              = (f.rows.filter (fun r => !(cellAt f.cols r c0).isSome)).length := by
            rw [colCells, filter_map_length]
            congr 1
            apply List.filter_congr
            intro r _
            rw [isNone_eq_not_isSome]
          rw [h1]
          exact filter_length_partition _ f.rows
        have hrec := ih (dropMissingIn c0 f)
        show (keyFold cs (dropMissingIn c0 f)).1.rows.length
            + (((colCells f c0).filter (fun x => x.isNone)).length
              + ((keyFold cs (dropMissingIn c0 f)).2.map stepCount).sum)
          = f.rows.length
        have hlen : (dropMissingIn c0 f).rows.length
            = (f.rows.filter (fun r => (cellAt f.cols r c0).isSome)).length := rfl
        omega
      · exact ih f
    · exact ih f

/-! ### Lemmas about the percent conversion (cleaning step 5) -/

theorem convPct_converted (x y : Cell) (h : convPct x = some y) : convertedCell y = true := by
  cases x with
  | none => simp only [convPct, Option.some_inj] at h; subst h; rfl
  | some v =>
    cases v with
    | num q => simp only [convPct, Option.some_inj] at h; subst h; rfl
    | inf b => simp only [convPct, Option.some_inj] at h; subst h; rfl
    | str s =>
      simp only [convPct] at h
      cases hp : parsePyFloat (stripPct s) with
      | none => rw [hp] at h; simp at h
      | some pf =>
        rw [hp] at h
        cases pf with
        | num q => simp at h; subst h; rfl
        | nan => simp at h; subst h; rfl
        | inf b => simp at h; subst h; rfl

theorem convPct_fix (x : Cell) (h : convertedCell x = true) : convPct x = some x := by
  cases x with
  | none => rfl
  | some v =>
    cases v with
    | num q => rfl
    | inf b => rfl
    | str s => simp [convertedCell] at h

theorem convRowM_nil_left (c : String) (xs : List Cell) : convRowM c [] xs = some [] := by
  cases xs <;> rfl

theorem convRowM_nil_right (c : String) (ns : List String) : convRowM c ns [] = some [] := by
  cases ns <;> rfl

theorem convRowM_cons_eq (c n : String) (ns : List String) (x : Cell) (xs zs : List Cell)
    (h : convRowM c (n :: ns) (x :: xs) = some zs) :
    ∃ y ys, (if n = c then convPct x else some x) = some y
      ∧ convRowM c ns xs = some ys ∧ zs = y :: ys := by
  unfold convRowM at h
  split at h
  · next y ys hA hB => exact ⟨y, ys, hA, hB, (Option.some_inj.mp h).symm⟩
  · simp at h

theorem convRowM_length (c : String) :
    ∀ (ns : List String) (xs ys : List Cell), convRowM c ns xs = some ys →
      ys.length = min ns.length xs.length := by
  intro ns
  induction ns with
  | nil =>
    intro xs ys h
    rw [convRowM_nil_left] at h
    simp at h
    simp [h]
  | cons n ns ih =>
    intro xs ys h
    cases xs with
    | nil =>
      rw [convRowM_nil_right] at h
      simp at h
      simp [h]
    | cons x xs =>
      obtain ⟨y, ys', _, hB, rfl⟩ := convRowM_cons_eq c n ns x xs ys h
      simp [ih xs ys' hB, Nat.succ_min_succ]

/-- The conversion of column `c` leaves the cells of every other column
unchanged. -/
theorem convRowM_cellAt_ne (c c0 : String) (hne : c0 ≠ c) :
    ∀ (ns : List String) (xs ys : List Cell), convRowM c ns xs = some ys →
      cellAt ns ys c0 = cellAt ns xs c0 := by
  intro ns
  induction ns with
  | nil =>
    intro xs ys h
    rw [convRowM_nil_left] at h
    simp at h
    subst h
    cases xs <;> rfl
  | cons n ns ih =>
    intro xs ys h
    cases xs with
    | nil =>
      rw [convRowM_nil_right] at h
      simp at h
      subst h
      rfl
    | cons x xs =>
      obtain ⟨y, ys', hA, hB, rfl⟩ := convRowM_cons_eq c n ns x xs ys h
      by_cases hn : n = c0
      · subst hn
        have hnc : ¬n = c := fun he => hne (he ▸ rfl)
        rw [if_neg hnc, Option.some_inj] at hA
        subst hA
        simp [cellAt]
      · simp only [cellAt, if_neg hn]
        exact ih xs ys' hB

theorem convRowM_establishes (c : String) :
    ∀ (ns : List String) (xs ys : List Cell), convRowM c ns xs = some ys →
      colConvInRow c ns ys = true := by
  intro ns
  induction ns with
  | nil =>
    intro xs ys h
    rw [convRowM_nil_left] at h
    simp at h
    subst h
    rfl
  | cons n ns ih =>
    intro xs ys h
    cases xs with
    | nil =>
      rw [convRowM_nil_right] at h
      simp at h
      subst h
      rfl
    | cons x xs =>
      obtain ⟨y, ys', hA, hB, rfl⟩ := convRowM_cons_eq c n ns x xs ys h
      simp only [colConvInRow, Bool.and_eq_true]
      refine ⟨?_, ih xs ys' hB⟩
      by_cases hc : n = c
      · rw [if_pos hc] at hA
        simp [if_pos hc, convPct_converted x y hA]
      · simp [if_neg hc]

theorem convRowM_pres_other (c c' : String) (hne : c ≠ c') :
    ∀ (ns : List String) (xs ys : List Cell), convRowM c' ns xs = some ys →
      colConvInRow c ns xs = true → colConvInRow c ns ys = true := by
  intro ns
  induction ns with
  | nil =>
    intro xs ys h _
    rw [convRowM_nil_left] at h
    simp at h
    subst h
    rfl
  | cons n ns ih =>
    intro xs ys h hconv
    cases xs with
    | nil =>
      rw [convRowM_nil_right] at h
      simp at h
      subst h
      rfl
    | cons x xs =>
      obtain ⟨y, ys', hA, hB, rfl⟩ := convRowM_cons_eq c' n ns x xs ys h
      simp only [colConvInRow, Bool.and_eq_true] at hconv ⊢
      refine ⟨?_, ih xs ys' hB hconv.2⟩
      by_cases hn : n = c
      · have hnc' : ¬n = c' := fun he => hne (hn ▸ he ▸ rfl)
        rw [if_neg hnc', Option.some_inj] at hA
        subst hA
        simpa [if_pos hn] using hconv.1
      · simp [if_neg hn]

theorem convRowM_id_of_conv (c : String) :
    ∀ (ns : List String) (xs : List Cell), colConvInRow c ns xs = true →
      xs.length ≤ ns.length → convRowM c ns xs = some xs := by
  intro ns
  induction ns with
  | nil =>
    intro xs _ hl
    cases xs with
    | nil => rfl
    | cons x xs => simp at hl
  | cons n ns ih =>
    intro xs hconv hl
    cases xs with
    | nil => exact convRowM_nil_right c (n :: ns)
    | cons x xs =>
      simp only [colConvInRow, Bool.and_eq_true] at hconv
      have hxs := ih xs hconv.2 (by simpa using hl)
      unfold convRowM
      by_cases hc : n = c
      · have hx : convPct x = some x := convPct_fix x (by simpa [if_pos hc] using hconv.1)
        rw [if_pos hc]
        rw [hx, hxs]
      · rw [if_neg hc, hxs]

theorem convRowM_idem (c : String) (ns : List String) (xs ys : List Cell)
    (h : convRowM c ns xs = some ys) : convRowM c ns ys = some ys :=
  convRowM_id_of_conv c ns ys (convRowM_establishes c ns xs ys h)
    (by rw [convRowM_length c ns xs ys h]; exact Nat.min_le_left _ _)

theorem colConvInRow_not_mem (c : String) :
    ∀ (ns : List String) (xs : List Cell), c ∉ ns → colConvInRow c ns xs = true := by
  intro ns
  induction ns with
  | nil => intro xs _; cases xs <;> rfl
  | cons n ns ih =>
    intro xs h
    cases xs with
    | nil => rfl
    | cons x xs =>
      have hn : ¬n = c := fun he => h (he ▸ List.mem_cons_self _ _)
      simp only [colConvInRow, Bool.and_eq_true, if_neg hn]
      exact ⟨by simp, ih xs (fun hm => h (List.mem_cons_of_mem _ hm))⟩

theorem convRows_cons_eq (c : String) (cols : List String) (r : List Cell)
    (rs rs' : List (List Cell)) (h : convRows c cols (r :: rs) = some rs') :
    ∃ r2 rs2, convRowM c cols r = some r2 ∧ convRows c cols rs = some rs2
      ∧ rs' = r2 :: rs2 := by
  unfold convRows at h
  split at h
  · next r2 rs2 hA hB => exact ⟨r2, rs2, hA, hB, (Option.some_inj.mp h).symm⟩
  · simp at h

theorem convRows_length (c : String) (cols : List String) :
    ∀ (rs rs' : List (List Cell)), convRows c cols rs = some rs' →
      rs'.length = rs.length := by
  intro rs
  induction rs with
  | nil => intro rs' h; simp only [convRows, Option.some_inj] at h; simp [h.symm]
  | cons r rs ih =>
    intro rs' h
    obtain ⟨r2, rs2, _, hB, rfl⟩ := convRows_cons_eq c cols r rs rs' h
    simp [ih rs2 hB]

theorem convRows_mem (c : String) (cols : List String) :
    ∀ (rs rs' : List (List Cell)), convRows c cols rs = some rs' →
      ∀ r' ∈ rs', ∃ r ∈ rs, convRowM c cols r = some r' := by
  intro rs
  induction rs with
  | nil => intro rs' h r' hr'; simp only [convRows, Option.some_inj] at h; subst h; simp at hr'
  | cons r rs ih =>
    intro rs' h r' hr'
    obtain ⟨r2, rs2, hA, hB, rfl⟩ := convRows_cons_eq c cols r rs rs' h
    rcases List.mem_cons.mp hr' with rfl | hr'
    · exact ⟨r, List.mem_cons_self _ _, hA⟩
    · obtain ⟨r0, hr0, he⟩ := ih rs2 hB r' hr'
      exact ⟨r0, List.mem_cons_of_mem _ hr0, he⟩

theorem convRows_id_of_conv (c : String) (cols : List String) :
    ∀ rs : List (List Cell),
      (∀ r ∈ rs, colConvInRow c cols r = true ∧ r.length ≤ cols.length) →
      convRows c cols rs = some rs := by
  intro rs
  induction rs with
  | nil => intro _; rfl
  | cons r rs ih =>
    intro h
    have hr := h r (List.mem_cons_self _ _)
    have hrow := convRowM_id_of_conv c cols r hr.1 hr.2
    unfold convRows
    rw [hrow, ih (fun r0 hr0 => h r0 (List.mem_cons_of_mem _ hr0))]

/-! ### Lemmas about the conversion stages -/

theorem convStage_spec (c : String) (st : Step) (f : Frame) (p : Frame × List Step)
    (h : convStage c st f = some p) :
    p.1.cols = f.cols
    ∧ p.2 = (if c ∈ f.cols then [st] else [])
    ∧ ((c ∈ f.cols ∧ convRows c f.cols f.rows = some p.1.rows)
        ∨ (c ∉ f.cols ∧ p.1 = f)) := by
  unfold convStage at h
  by_cases hm : c ∈ f.cols
  · rw [if_pos hm, Option.map_eq_some'] at h
    obtain ⟨rs, hrs, hp⟩ := h
    subst hp
    exact ⟨rfl, by rw [if_pos hm], Or.inl ⟨hm, hrs⟩⟩
  · rw [if_neg hm, Option.some_inj] at h
    subst h
    exact ⟨rfl, by rw [if_neg hm], Or.inr ⟨hm, rfl⟩⟩

theorem convStage_rows_length (c : String) (st : Step) (f : Frame) (p : Frame × List Step)
    (h : convStage c st f = some p) : p.1.rows.length = f.rows.length := by
  rcases (convStage_spec c st f p h).2.2 with ⟨_, hrows⟩ | ⟨_, hp⟩
  · exact convRows_length c f.cols f.rows p.1.rows hrows
  · rw [hp]

theorem convStage_noNull (c c0 : String) (hne : c0 ≠ c) (st : Step) (f : Frame)
    (p : Frame × List Step) (h : convStage c st f = some p) (hn : noNullIn f c0) :
    noNullIn p.1 c0 := by
  obtain ⟨hcols, _, hbr⟩ := convStage_spec c st f p h
  rcases hbr with ⟨_, hrows⟩ | ⟨_, hp⟩
  · intro r' hr'
    obtain ⟨r, hr, hconv⟩ := convRows_mem c f.cols f.rows p.1.rows hrows r' hr'
    rw [hcols, convRowM_cellAt_ne c c0 hne f.cols r r' hconv]
    exact hn r hr
  · rw [hp]
    exact hn

theorem convStage_WF (c : String) (st : Step) (f : Frame) (p : Frame × List Step)
    (h : convStage c st f = some p) (hwf : f.WF) : p.1.WF := by
  obtain ⟨hcols, _, hbr⟩ := convStage_spec c st f p h
  rcases hbr with ⟨_, hrows⟩ | ⟨_, hp⟩
  · intro r' hr'
    obtain ⟨r, hr, hconv⟩ := convRows_mem c f.cols f.rows p.1.rows hrows r' hr'
    rw [hcols, convRowM_length c f.cols r r' hconv, hwf r hr]
    exact Nat.min_self _
  · rw [hp]
    exact hwf

theorem convStage_conv_est (c : String) (st : Step) (f : Frame) (p : Frame × List Step)
    (h : convStage c st f = some p) :
    ∀ r' ∈ p.1.rows, colConvInRow c p.1.cols r' = true := by
  obtain ⟨hcols, _, hbr⟩ := convStage_spec c st f p h
  rcases hbr with ⟨_, hrows⟩ | ⟨hnm, hp⟩
  · intro r' hr'
    obtain ⟨r, _, hconv⟩ := convRows_mem c f.cols f.rows p.1.rows hrows r' hr'
    rw [hcols]
    exact convRowM_establishes c f.cols r r' hconv
  · intro r' _
    rw [hp]
    exact colConvInRow_not_mem c f.cols r' (hp ▸ hnm)

theorem convStage_conv_pres (c c' : String) (hne : c ≠ c') (st : Step) (f : Frame)
    (p : Frame × List Step) (h : convStage c' st f = some p)
    (hconv : ∀ r ∈ f.rows, colConvInRow c f.cols r = true) :
    ∀ r' ∈ p.1.rows, colConvInRow c p.1.cols r' = true := by
  obtain ⟨hcols, _, hbr⟩ := convStage_spec c' st f p h
  rcases hbr with ⟨_, hrows⟩ | ⟨_, hp⟩
  · intro r' hr'
    obtain ⟨r, hr, hc⟩ := convRows_mem c' f.cols f.rows p.1.rows hrows r' hr'
    rw [hcols]
    exact convRowM_pres_other c c' hne f.cols r r' hc (hconv r hr)
  · intro r' hr'
    rw [hp]
    exact hconv r' (hp ▸ hr')

theorem convStage_id (c : String) (st : Step) (f : Frame)
    (hconv : ∀ r ∈ f.rows, colConvInRow c f.cols r = true)
    (hb : c ∈ f.cols → ∀ r ∈ f.rows, r.length ≤ f.cols.length) :
    convStage c st f = some (f, if c ∈ f.cols then [st] else []) := by
  unfold convStage
  by_cases hm : c ∈ f.cols
  · rw [if_pos hm,
      convRows_id_of_conv c f.cols f.rows (fun r hr => ⟨hconv r hr, hb hm r hr⟩)]
    rw [if_pos hm]
    rfl
  · rw [if_neg hm, if_neg hm]

theorem convertPcts_spec (f : Frame) (p : Frame × List Step) (h : convertPcts f = some p) :
    ∃ p1 p2, convStage "int_rate" Step.convertedIntRate f = some p1
      ∧ convStage "revol_util" Step.convertedRevolUtil p1.1 = some p2
      ∧ p = (p2.1, p1.2 ++ p2.2) := by
  unfold convertPcts at h
  split at h
  · simp at h
  · next p1 hp1 =>
    split at h
    · simp at h
    · next p2 hp2 => exact ⟨p1, p2, hp1, hp2, (Option.some_inj.mp h).symm⟩

theorem convertPcts_cols (f : Frame) (p : Frame × List Step) (h : convertPcts f = some p) :
    p.1.cols = f.cols := by
  obtain ⟨p1, p2, h1, h2, rfl⟩ := convertPcts_spec f p h
  exact ((convStage_spec _ _ _ _ h2).1).trans (convStage_spec _ _ _ _ h1).1

theorem convertPcts_rows_length (f : Frame) (p : Frame × List Step)
    (h : convertPcts f = some p) : p.1.rows.length = f.rows.length := by
  obtain ⟨p1, p2, h1, h2, rfl⟩ := convertPcts_spec f p h
  exact (convStage_rows_length _ _ _ _ h2).trans (convStage_rows_length _ _ _ _ h1)

theorem convertPcts_WF (f : Frame) (p : Frame × List Step)
    (h : convertPcts f = some p) (hwf : f.WF) : p.1.WF := by
  obtain ⟨p1, p2, h1, h2, rfl⟩ := convertPcts_spec f p h
  exact convStage_WF _ _ _ p2 h2 (convStage_WF _ _ _ p1 h1 hwf)

theorem convertPcts_noNull (f : Frame) (p : Frame × List Step) (c0 : String)
    (hne1 : c0 ≠ "int_rate") (hne2 : c0 ≠ "revol_util")
    (h : convertPcts f = some p) (hn : noNullIn f c0) : noNullIn p.1 c0 := by
  obtain ⟨p1, p2, h1, h2, rfl⟩ := convertPcts_spec f p h
  exact convStage_noNull _ _ hne2 _ _ p2 h2 (convStage_noNull _ _ hne1 _ _ p1 h1 hn)

theorem convertPcts_steps (f : Frame) (p : Frame × List Step) (h : convertPcts f = some p) :
    p.2 = (if "int_rate" ∈ f.cols then [Step.convertedIntRate] else [])
      ++ (if "revol_util" ∈ f.cols then [Step.convertedRevolUtil] else []) := by
  obtain ⟨p1, p2, h1, h2, rfl⟩ := convertPcts_spec f p h
  obtain ⟨hc1, hs1, -⟩ := convStage_spec _ _ _ _ h1
  obtain ⟨-, hs2, -⟩ := convStage_spec _ _ _ _ h2
  rw [hc1] at hs2
  simp [hs1, hs2]

theorem convertPcts_conv (f : Frame) (p : Frame × List Step) (h : convertPcts f = some p) :
    ∀ r ∈ p.1.rows, colConvInRow "int_rate" p.1.cols r = true
      ∧ colConvInRow "revol_util" p.1.cols r = true := by
  obtain ⟨p1, p2, h1, h2, rfl⟩ := convertPcts_spec f p h
  intro r hr
  constructor
  · exact convStage_conv_pres "int_rate" "revol_util" (by decide) _ _ _ h2
      (convStage_conv_est _ _ _ _ h1) r hr
  · exact convStage_conv_est _ _ _ _ h2 r hr

theorem convertPcts_idem (f : Frame) (p : Frame × List Step) (h : convertPcts f = some p)
    (hb : ∀ r ∈ p.1.rows, r.length ≤ p.1.cols.length) :
    convertPcts p.1 = some (p.1, p.2) := by
  have hconv := convertPcts_conv f p h
  have s1 : convStage "int_rate" Step.convertedIntRate p.1
      = some (p.1, if "int_rate" ∈ p.1.cols then [Step.convertedIntRate] else []) :=
    convStage_id _ _ _ (fun r hr => (hconv r hr).1) (fun _ r hr => hb r hr)
  have s2 : convStage "revol_util" Step.convertedRevolUtil p.1
      = some (p.1, if "revol_util" ∈ p.1.cols then [Step.convertedRevolUtil] else []) :=
    convStage_id _ _ _ (fun r hr => (hconv r hr).2) (fun _ r hr => hb r hr)
  unfold convertPcts
  rw [s1]
  dsimp only
  rw [s2]
  dsimp only
  rw [convertPcts_steps f p h, convertPcts_cols f p h]

/-! ### Lemmas about the whole cleaning stage -/

theorem cleanWithSteps_eq (f : Frame) :
    cleanWithSteps f = (convertPcts (postKey f).1).map
      (fun p5 => (p5.1, preSteps f ++ (postKey f).2 ++ p5.2)) := rfl

theorem cleanFrame_eq (f : Frame) :
    cleanFrame f = (convertPcts (postKey f).1).map Prod.fst := by
  unfold cleanFrame
  rw [cleanWithSteps_eq]
  cases convertPcts (postKey f).1 <;> rfl

theorem preKey_WF (f : Frame) (hwf : f.WF) : (preKey f).WF :=
  dropDuplicates_WF _ (dropColsBy_WF _ _ (dropColsBy_WF _ _ hwf))

theorem clean_WF (f d : Frame) (hwf : f.WF) (h : cleanFrame f = some d) : d.WF := by
  rw [cleanFrame_eq] at h
  obtain ⟨p5, hp5, rfl⟩ := Option.map_eq_some'.mp h
  exact convertPcts_WF _ _ hp5 (keyFold_WF _ _ (preKey_WF f hwf))

theorem clean_noNullKey (f d : Frame) (h : cleanFrame f = some d) :
    ∀ c ∈ keyCols, c ≠ "int_rate" → c ∈ d.cols → noNullIn d c := by
  rw [cleanFrame_eq] at h
  obtain ⟨p5, hp5, rfl⟩ := Option.map_eq_some'.mp h
  intro c hc hne hcol
  have hne2 : c ≠ "revol_util" := by
    intro he
    subst he
    simp [keyCols] at hc
  have hcol' : c ∈ (postKey f).1.cols := by
    rw [← convertPcts_cols _ _ hp5]
    exact hcol
  refine convertPcts_noNull _ _ c hne hne2 hp5 ?_
  exact keyFold_noNull keyCols (preKey f) c hc
    (by rw [← keyFold_cols keyCols (preKey f)]; exact hcol')

theorem clean_rows_le (f d : Frame) (h : cleanFrame f = some d) :
    d.rows.length ≤ f.rows.length := by
  rw [cleanFrame_eq] at h
  obtain ⟨p5, hp5, rfl⟩ := Option.map_eq_some'.mp h
  rw [convertPcts_rows_length _ _ hp5]
  calc (postKey f).1.rows.length
      ≤ (preKey f).rows.length := (keyFold_rows_sublist _ _).length_le
    _ ≤ (dropHighMissingCols (dropEmptyCols f)).rows.length :=
        (dropDuplicates_rows_sublist _).length_le
    _ = f.rows.length := by
        unfold dropHighMissingCols dropEmptyCols
        rw [dropColsBy_rows_length, dropColsBy_rows_length]

theorem clean_cols_sublist (f d : Frame) (h : cleanFrame f = some d) :
    List.Sublist d.cols f.cols := by
  rw [cleanFrame_eq] at h
  obtain ⟨p5, hp5, rfl⟩ := Option.map_eq_some'.mp h
  rw [convertPcts_cols _ _ hp5]
  show List.Sublist (postKey f).1.cols f.cols
  rw [postKey, keyFold_cols]
  exact (dropColsBy_cols_sublist _ _).trans (dropColsBy_cols_sublist _ _)

/-! ### Claim C3 -/

/-- C3 counterexample, two failure modes.  First, a raw input with all five
key columns whose `loan_status` is entirely null: cleaning step 1 drops the
all-null column, so the cleaned output no longer carries `loan_status` (its
lookup is null).  Second, a raw input whose `int_rate` is the string "NaN%"
(not a pandas NA token): the row survives the step-4 dropna because the cell
is a non-null string, and step 5's `astype(float)` then converts it to NaN,
so the cleaned output holds a null in the present key column `int_rate`.
Both contradict "each of these five columns is non-null in every row". -/
theorem claim_C3_counterexample :
    ((∀ c ∈ keyCols, c ∈ wC3.cols)
      ∧ cleanFrame wC3 = some wC3out
      ∧ "loan_status" ∉ wC3out.cols
      ∧ 0 < wC3out.rows.length
      ∧ cellAt wC3out.cols (wC3out.rows.getD 0 []) "loan_status" = none)
    ∧ ((∀ c ∈ keyCols, c ∈ wC3b.cols)
      ∧ cleanFrame wC3b = some wC3bOut
      ∧ "int_rate" ∈ wC3bOut.cols
      ∧ 0 < wC3bOut.rows.length
      ∧ cellAt wC3bOut.cols (wC3bOut.rows.getD 0 []) "int_rate" = none) := by
  refine ⟨⟨by decide, by decide, by decide, by decide, by decide⟩,
    ⟨by decide, by decide, by decide, by decide, by decide⟩⟩

/-- C3 amended: if the raw input contains the five key columns, then every
key column other than `int_rate` that is still present in the cleaned output
is non-null in every row.  The two carve-outs are forced by the
counterexample: a key column entirely (or over 80%) null in the raw input is
dropped by steps 1-2 and absent from the output, and `int_rate` cells can be
turned into nulls by step 5 when the raw value is a float-parseable NaN
string. -/
theorem claim_C3_keyNonNull_amended (f d : Frame)
    (hkeys : ∀ c ∈ keyCols, c ∈ f.cols) (h : cleanFrame f = some d) :
    ∀ c ∈ keyCols, c ≠ "int_rate" → c ∈ d.cols →
      ∀ r ∈ d.rows, (cellAt d.cols r c).isSome = true :=
  fun c hc hne hcol r hr => clean_noNullKey f d h c hc hne hcol r hr

/-- Witness for the amended C3 at a concrete raw frame with one null-grade
row: the hypotheses hold and every non-`int_rate` key column of the cleaned
output is null-free. -/
theorem claim_C3_witness :
    (∀ c ∈ keyCols, c ∈ wC6.cols) ∧ cleanFrame wC6 = some wC6out
    ∧ ∀ c ∈ keyCols, c ≠ "int_rate" → c ∈ wC6out.cols →
        ∀ r ∈ wC6out.rows, (cellAt wC6out.cols r c).isSome = true :=
  ⟨by decide, by decide, claim_C3_keyNonNull_amended wC6 wC6out (by decide) (by decide)⟩

/-! ### Claim C5 -/

/-- C5 counterexample: cleaning is not idempotent.  In `wC5`, step 4 of the
first run drops the row that is missing `loan_amnt`, leaving the `extra`
column entirely null in the cleaned output; a second cleaning run then drops
that column.  In `wC5b`, the first run converts the "nan%" string in
`int_rate` to a null — and the cleaned output then satisfies the no-all-null,
no-high-missing and no-duplicate provisos, yet step 4 of a second run still
drops the now-null row, so even those three provisos do not restore
idempotence. -/
theorem claim_C5_counterexample :
    (cleanFrame wC5 = some wC5out
      ∧ cleanFrame wC5out = some wC5out2
      ∧ wC5out2 ≠ wC5out)
    ∧ (cleanFrame wC5b = some wC5bOut
      ∧ (∀ i, i < wC5bOut.cols.length → colIsAllNull wC5bOut i = false)
      ∧ (∀ i, i < wC5bOut.cols.length → highMissing wC5bOut i = false)
      ∧ wC5bOut.rows.Nodup
      ∧ cleanFrame wC5bOut = some wC5bOut2
      ∧ wC5bOut2 ≠ wC5bOut) := by
  refine ⟨⟨by decide, by decide, by decide⟩,
    ⟨by decide, by decide, by decide, by decide, by decide, by decide⟩⟩

/-- C5 amended: re-running cleaning on its own output is the identity
provided the cleaned output has no all-null column, no column with more than
80% nulls, no duplicate rows, and no null in any key column it retains;
without these provisos a second run can remove further columns and rows, as
the counterexample shows (a null in a retained key column arises when step 5
converts a float-parseable NaN string such as "nan%"). -/
theorem claim_C5_idempotent_amended (f d : Frame) (hwf : f.WF)
    (h : cleanFrame f = some d)
    (h1 : ∀ i, i < d.cols.length → colIsAllNull d i = false)
    (h2 : ∀ i, i < d.cols.length → highMissing d i = false)
    (h3 : d.rows.Nodup)
    (h4 : ∀ c ∈ keyCols, c ∈ d.cols → noNullIn d c) :
    cleanFrame d = some d := by
  have hdwf : d.WF := clean_WF f d hwf h
  have e1 : dropEmptyCols d = d :=
    dropColsBy_id _ d hdwf (fun i hi => by simp [h1 i hi])
  have e2 : dropHighMissingCols d = d :=
    dropColsBy_id _ d hdwf (fun i hi => by simp [h2 i hi])
  have e3 : preKey d = d := by
    unfold preKey
    rw [e1, e2]
    exact dropDuplicates_id d h3
  have e4 : keyFold keyCols d = (d, []) := keyFold_id keyCols d h4
  have e5 : postKey d = (d, []) := by
    unfold postKey
    rw [e3, e4]
  rw [cleanFrame_eq] at h
  obtain ⟨p5, hp5, hd⟩ := Option.map_eq_some'.mp h
  have hb : ∀ r ∈ p5.1.rows, r.length ≤ p5.1.cols.length := by
    intro r hr
    have hwf5 : p5.1.WF := convertPcts_WF _ _ hp5 (keyFold_WF _ _ (preKey_WF f hwf))
    exact le_of_eq (hwf5 r hr)
  have e6 : convertPcts d = some (d, p5.2) := by
    have := convertPcts_idem (postKey f).1 p5 hp5 hb
    rwa [hd] at this
  rw [cleanFrame_eq, e5, e6]
  rfl

/-- Witness for the amended C5: cleaning `wC6` yields `wC6out`, which has no
all-null column, no high-missing column, no duplicate rows and no null in a
retained key column, and cleaning it again returns it unchanged. -/
theorem claim_C5_witness :
    wC6.WF ∧ cleanFrame wC6 = some wC6out
    ∧ (∀ i, i < wC6out.cols.length → colIsAllNull wC6out i = false)
    ∧ (∀ i, i < wC6out.cols.length → highMissing wC6out i = false)
    ∧ wC6out.rows.Nodup
    ∧ (∀ c ∈ keyCols, c ∈ wC6out.cols → noNullIn wC6out c)
    ∧ cleanFrame wC6out = some wC6out :=
  ⟨by decide, by decide, by decide, by decide, by decide, by decide,
    claim_C5_idempotent_amended wC6 wC6out (by decide) (by decide) (by decide)
      (by decide) (by decide) (by decide)⟩

/-! ### Claim C6 -/

/-- C6: the cleaning stage never adds a row or a column — the cleaned output
has at most as many rows and columns as the raw input and every cleaned
column name comes from the raw input — and the transformation stage never
removes a column: every input column name appears in the processed output. -/
theorem claim_C6_monotone (f d : Frame) (h : cleanFrame f = some d) :
    (d.rows.length ≤ f.rows.length
      ∧ d.cols.length ≤ f.cols.length
      ∧ ∀ c ∈ d.cols, c ∈ f.cols)
    ∧ ∀ (g : Frame), ∀ c ∈ g.cols, c ∈ (transformFrame g).cols :=
  ⟨⟨clean_rows_le f d h, (clean_cols_sublist f d h).length_le,
    fun c hc => (clean_cols_sublist f d h).subset hc⟩,
   fun g c hc => transformFrame_mem_cols c g hc⟩

/-- Witness for C6 at a concrete frame whose cleaning drops one row. -/
theorem claim_C6_witness :
    cleanFrame wC6 = some wC6out
    ∧ (wC6out.rows.length ≤ wC6.rows.length
      ∧ wC6out.cols.length ≤ wC6.cols.length
      ∧ ∀ c ∈ wC6out.cols, c ∈ wC6.cols)
    ∧ ∀ c ∈ wC6out.cols, c ∈ (transformFrame wC6out).cols :=
  ⟨by decide, (claim_C6_monotone wC6 wC6out (by decide)).1,
    fun c hc => (claim_C6_monotone wC6 wC6out (by decide)).2 wC6out c hc⟩

/-! ### Claim C9 -/

/-- C9 counterexample: the cleaning stage's artifacts are not identical across
two runs on the same input, because the report embeds the wall-clock time
(`datetime.now()`) in its `Date:` line; runs at different times produce
different report files. -/
theorem claim_C9_counterexample :
    runCleaning wC7 "2024-01-01 00:00:00" ≠ runCleaning wC7 "2024-01-02 00:00:00" := by
  decide

/-- C9 amended: the cleaned-data artifact is a pure function of the input
frame (identical across any two runs, with no randomness), and the whole
artifact pair including the report is identical for two runs at the same
timestamp; the report's `Date:` line is the only time dependence. -/
theorem claim_C9_determinism_amended (f : Frame) (t1 t2 : String) :
    (runCleaning f t1).map Prod.fst = (runCleaning f t2).map Prod.fst
    ∧ (t1 = t2 → runCleaning f t1 = runCleaning f t2) := by
  constructor
  · unfold runCleaning
    cases cleanWithSteps f <;> rfl
  · rintro rfl
    rfl

/-- Witness for the amended C9 at a concrete frame and two timestamps. -/
theorem claim_C9_witness :
    ((runCleaning wC6 "2024-01-01 00:00:00").map Prod.fst
      = (runCleaning wC6 "2024-01-02 00:00:00").map Prod.fst)
    ∧ ("2024-01-01 00:00:00" = "2024-01-02 00:00:00" →
        runCleaning wC6 "2024-01-01 00:00:00" = runCleaning wC6 "2024-01-02 00:00:00") :=
  claim_C9_determinism_amended wC6 "2024-01-01 00:00:00" "2024-01-02 00:00:00"

/-! ### Claim C7 -/

/-- C7 counterexample: on an input that is already fully clean (and whose
`int_rate` is already numeric) the cleaning stage changes nothing at all —
the output frame equals the input — yet the report's step list still contains
the `int_rate` conversion entry, so the report does not list only steps with
nonzero effect. -/
theorem claim_C7_counterexample :
    cleanWithSteps wC7 = some (wC7, [Step.convertedIntRate])
    ∧ ([Step.convertedIntRate] : List Step) ≠ [] := by
  refine ⟨by decide, by decide⟩

/-- C7 amended: every cleaning step runs unconditionally, and for steps 1-4
the report lists an entry exactly when the step removed something — an
empty-columns (resp. high-missing, duplicate-rows) entry appears iff that step
dropped at least one column (resp. column, row), its count is the exact number
dropped, every key-column entry carries a positive count, and the key-column
entries account exactly for the rows dropped in step 4.  The percent-conversion
entries of step 5, however, are listed whenever the column is present,
regardless of whether any value changed. -/
theorem claim_C7_report_amended (f d : Frame) (st : List Step)
    (h : cleanWithSteps f = some (d, st)) :
    ((∃ n, Step.removedEmptyCols n ∈ st)
        ↔ (dropEmptyCols f).cols.length < f.cols.length)
    ∧ (∀ n, Step.removedEmptyCols n ∈ st →
        n = f.cols.length - (dropEmptyCols f).cols.length)
    ∧ ((∃ n, Step.removedHighMissing n ∈ st)
        ↔ (dropHighMissingCols (dropEmptyCols f)).cols.length
            < (dropEmptyCols f).cols.length)
    ∧ (∀ n, Step.removedHighMissing n ∈ st →
        n = (dropEmptyCols f).cols.length
            - (dropHighMissingCols (dropEmptyCols f)).cols.length)
    ∧ ((∃ n, Step.removedDupes n ∈ st)
        ↔ (preKey f).rows.length < (dropHighMissingCols (dropEmptyCols f)).rows.length)
    ∧ (∀ n, Step.removedDupes n ∈ st →
        n = (dropHighMissingCols (dropEmptyCols f)).rows.length - (preKey f).rows.length)
    ∧ (∀ c n, Step.removedMissingKey c n ∈ st → 0 < n)
    ∧ ((postKey f).1.rows.length + ((postKey f).2.map stepCount).sum
        = (preKey f).rows.length)
    ∧ (Step.convertedIntRate ∈ st ↔ "int_rate" ∈ (postKey f).1.cols)
    ∧ (Step.convertedRevolUtil ∈ st ↔ "revol_util" ∈ (postKey f).1.cols) := by
  rw [cleanWithSteps_eq] at h
  obtain ⟨p5, hp5, heq⟩ := Option.map_eq_some'.mp h
  have hst : st = preSteps f ++ (postKey f).2 ++ p5.2 := (congrArg Prod.snd heq).symm
  subst hst
  have hk := keyFold_steps_shape keyCols (preKey f)
  have hsteps5 := convertPcts_steps _ _ hp5
  have hle1 : (dropEmptyCols f).cols.length ≤ f.cols.length :=
    (dropColsBy_cols_sublist _ _).length_le
  have hle2 : (dropHighMissingCols (dropEmptyCols f)).cols.length
      ≤ (dropEmptyCols f).cols.length :=
    (dropColsBy_cols_sublist _ _).length_le
  have hle3 : (preKey f).rows.length
      ≤ (dropHighMissingCols (dropEmptyCols f)).rows.length :=
    (dropDuplicates_rows_sublist _).length_le
  have hps : preSteps f
      = (if 0 < f.cols.length - (dropEmptyCols f).cols.length
          then [Step.removedEmptyCols (f.cols.length - (dropEmptyCols f).cols.length)]
          else [])
        ++ (if 0 < (dropEmptyCols f).cols.length
              - (dropHighMissingCols (dropEmptyCols f)).cols.length
          then [Step.removedHighMissing ((dropEmptyCols f).cols.length
              - (dropHighMissingCols (dropEmptyCols f)).cols.length)]
          else [])
        ++ (if 0 < (dropHighMissingCols (dropEmptyCols f)).rows.length
              - (preKey f).rows.length
          then [Step.removedDupes ((dropHighMissingCols (dropEmptyCols f)).rows.length
              - (preKey f).rows.length)]
          else []) := rfl
  rw [hps, hsteps5]
  have memIff : ∀ e : Step,
      e ∈ (if 0 < f.cols.length - (dropEmptyCols f).cols.length
            then [Step.removedEmptyCols (f.cols.length - (dropEmptyCols f).cols.length)]
            else [])
          ++ (if 0 < (dropEmptyCols f).cols.length
                - (dropHighMissingCols (dropEmptyCols f)).cols.length
            then [Step.removedHighMissing ((dropEmptyCols f).cols.length
                - (dropHighMissingCols (dropEmptyCols f)).cols.length)]
            else [])
          ++ (if 0 < (dropHighMissingCols (dropEmptyCols f)).rows.length
                - (preKey f).rows.length
            then [Step.removedDupes ((dropHighMissingCols (dropEmptyCols f)).rows.length
                - (preKey f).rows.length)]
            else [])
          ++ (postKey f).2
          ++ ((if "int_rate" ∈ (postKey f).1.cols then [Step.convertedIntRate] else [])
            ++ (if "revol_util" ∈ (postKey f).1.cols then [Step.convertedRevolUtil] else []))
        ↔ ((0 < f.cols.length - (dropEmptyCols f).cols.length
            ∧ e = Step.removedEmptyCols (f.cols.length - (dropEmptyCols f).cols.length))
          ∨ (0 < (dropEmptyCols f).cols.length
                - (dropHighMissingCols (dropEmptyCols f)).cols.length
            ∧ e = Step.removedHighMissing ((dropEmptyCols f).cols.length
                - (dropHighMissingCols (dropEmptyCols f)).cols.length))
          ∨ (0 < (dropHighMissingCols (dropEmptyCols f)).rows.length
                - (preKey f).rows.length
            ∧ e = Step.removedDupes ((dropHighMissingCols (dropEmptyCols f)).rows.length
                - (preKey f).rows.length))
          ∨ e ∈ (postKey f).2
          ∨ ("int_rate" ∈ (postKey f).1.cols ∧ e = Step.convertedIntRate)
          ∨ ("revol_util" ∈ (postKey f).1.cols ∧ e = Step.convertedRevolUtil)) := by
    intro e
    simp only [List.mem_append, List.mem_singleton]
    constructor
    · rintro ((((h1 | h2) | h3) | h4) | (h5 | h6))
      · split at h1
        · next hc => exact Or.inl ⟨hc, by simpa using h1⟩
        · simp at h1
      · split at h2
        · next hc => exact Or.inr (Or.inl ⟨hc, by simpa using h2⟩)
        · simp at h2
      · split at h3
        · next hc => exact Or.inr (Or.inr (Or.inl ⟨hc, by simpa using h3⟩))
        · simp at h3
      · exact Or.inr (Or.inr (Or.inr (Or.inl h4)))
      · split at h5
        · next hc => exact Or.inr (Or.inr (Or.inr (Or.inr (Or.inl ⟨hc, by simpa using h5⟩))))
        · simp at h5
      · split at h6
        · next hc =>
          exact Or.inr (Or.inr (Or.inr (Or.inr (Or.inr ⟨hc, by simpa using h6⟩))))
        · simp at h6
    · rintro (⟨hc, rfl⟩ | ⟨hc, rfl⟩ | ⟨hc, rfl⟩ | h4 | ⟨hc, rfl⟩ | ⟨hc, rfl⟩)
      · exact Or.inl (Or.inl (Or.inl (Or.inl (by simp [hc]))))
      · exact Or.inl (Or.inl (Or.inl (Or.inr (by simp [hc]))))
      · exact Or.inl (Or.inl (Or.inr (by simp [hc])))
      · exact Or.inl (Or.inr h4)
      · exact Or.inr (Or.inl (by simp [hc]))
      · exact Or.inr (Or.inr (by simp [hc]))
  refine ⟨?_, ?_, ?_, ?_, ?_, ?_, ?_, keyFold_rows_conserve keyCols (preKey f), ?_, ?_⟩
  · constructor
    · rintro ⟨n, hn⟩
      rcases (memIff _).mp hn with ⟨hc, -⟩ | ⟨-, he⟩ | ⟨-, he⟩ | h4 | ⟨-, he⟩ | ⟨-, he⟩
      · omega
      · exact absurd he (by simp)
      · exact absurd he (by simp)
      · obtain ⟨c, m, he, -⟩ := hk _ h4
        exact absurd he (by simp)
      · exact absurd he (by simp)
      · exact absurd he (by simp)
    · intro hlt
      exact ⟨_, (memIff _).mpr (Or.inl ⟨by omega, rfl⟩)⟩
  · intro n hn
    rcases (memIff _).mp hn with ⟨-, he⟩ | ⟨-, he⟩ | ⟨-, he⟩ | h4 | ⟨-, he⟩ | ⟨-, he⟩
    · simpa using he
    · exact absurd he (by simp)
    · exact absurd he (by simp)
    · obtain ⟨c, m, he, -⟩ := hk _ h4
      exact absurd he (by simp)
    · exact absurd he (by simp)
    · exact absurd he (by simp)
  · constructor
    · rintro ⟨n, hn⟩
      rcases (memIff _).mp hn with ⟨-, he⟩ | ⟨hc, -⟩ | ⟨-, he⟩ | h4 | ⟨-, he⟩ | ⟨-, he⟩
      · exact absurd he (by simp)
      · omega
      · exact absurd he (by simp)
      · obtain ⟨c, m, he, -⟩ := hk _ h4
        exact absurd he (by simp)
      · exact absurd he (by simp)
      · exact absurd he (by simp)
    · intro hlt
      exact ⟨_, (memIff _).mpr (Or.inr (Or.inl ⟨by omega, rfl⟩))⟩
  · intro n hn
    rcases (memIff _).mp hn with ⟨-, he⟩ | ⟨-, he⟩ | ⟨-, he⟩ | h4 | ⟨-, he⟩ | ⟨-, he⟩
    · exact absurd he (by simp)
    · simpa using he
    · exact absurd he (by simp)
    · obtain ⟨c, m, he, -⟩ := hk _ h4
      exact absurd he (by simp)
    · exact absurd he (by simp)
    · exact absurd he (by simp)
  · constructor
    · rintro ⟨n, hn⟩
      rcases (memIff _).mp hn with ⟨-, he⟩ | ⟨-, he⟩ | ⟨hc, -⟩ | h4 | ⟨-, he⟩ | ⟨-, he⟩
      · exact absurd he (by simp)
      · exact absurd he (by simp)
      · omega
      · obtain ⟨c, m, he, -⟩ := hk _ h4
        exact absurd he (by simp)
      · exact absurd he (by simp)
      · exact absurd he (by simp)
    · intro hlt
      exact ⟨_, (memIff _).mpr (Or.inr (Or.inr (Or.inl ⟨by omega, rfl⟩)))⟩
  · intro n hn
    rcases (memIff _).mp hn with ⟨-, he⟩ | ⟨-, he⟩ | ⟨-, he⟩ | h4 | ⟨-, he⟩ | ⟨-, he⟩
    · exact absurd he (by simp)
    · exact absurd he (by simp)
    · simpa using he
    · obtain ⟨c, m, he, -⟩ := hk _ h4
      exact absurd he (by simp)
    · exact absurd he (by simp)
    · exact absurd he (by simp)
  · intro c n hn
    rcases (memIff _).mp hn with ⟨-, he⟩ | ⟨-, he⟩ | ⟨-, he⟩ | h4 | ⟨-, he⟩ | ⟨-, he⟩
    · exact absurd he (by simp)
    · exact absurd he (by simp)
    · exact absurd he (by simp)
    · obtain ⟨c', m, he, hm⟩ := hk _ h4
      obtain ⟨-, rfl⟩ : c = c' ∧ n = m := by
        constructor <;> [skip; skip] <;> injection he with h1 h2
      exact hm
    · exact absurd he (by simp)
    · exact absurd he (by simp)
  · constructor
    · intro hn
      rcases (memIff _).mp hn with ⟨-, he⟩ | ⟨-, he⟩ | ⟨-, he⟩ | h4 | ⟨hc, -⟩ | ⟨-, he⟩
      · exact absurd he (by simp)
      · exact absurd he (by simp)
      · exact absurd he (by simp)
      · obtain ⟨c, m, he, -⟩ := hk _ h4
        exact absurd he (by simp)
      · exact hc
      · exact absurd he (by simp)
    · intro hc
      exact (memIff _).mpr (Or.inr (Or.inr (Or.inr (Or.inr (Or.inl ⟨hc, rfl⟩)))))
  · constructor
    · intro hn
      rcases (memIff _).mp hn with ⟨-, he⟩ | ⟨-, he⟩ | ⟨-, he⟩ | h4 | ⟨-, he⟩ | ⟨hc, -⟩
      · exact absurd he (by simp)
      · exact absurd he (by simp)
      · exact absurd he (by simp)
      · obtain ⟨c, m, he, -⟩ := hk _ h4
        exact absurd he (by simp)
      · exact absurd he (by simp)
      · exact hc
    · intro hc
      exact (memIff _).mpr (Or.inr (Or.inr (Or.inr (Or.inr (Or.inr ⟨hc, rfl⟩)))))

/-- Witness for the amended C7: cleaning `wC6` produces the report entries
for the grade-row drop (with its positive count) and the `int_rate`
conversion, whose listing tracks column presence. -/
theorem claim_C7_witness :
    cleanWithSteps wC6
      = some (wC6out, [Step.removedMissingKey "grade" 1, Step.convertedIntRate])
    ∧ (∀ c n, Step.removedMissingKey c n
        ∈ [Step.removedMissingKey "grade" 1, Step.convertedIntRate] → 0 < n)
    ∧ (Step.convertedIntRate ∈ [Step.removedMissingKey "grade" 1, Step.convertedIntRate]
        ↔ "int_rate" ∈ (postKey wC6).1.cols) :=
  ⟨by decide,
   (claim_C7_report_amended wC6 wC6out
      [Step.removedMissingKey "grade" 1, Step.convertedIntRate] (by decide)).2.2.2.2.2.2.1,
   (claim_C7_report_amended wC6 wC6out
      [Step.removedMissingKey "grade" 1, Step.convertedIntRate]
      (by decide)).2.2.2.2.2.2.2.2.1⟩

end LoanPipeline
